import Mathlib

set_option maxRecDepth 10000

/-!
Verification of the A-level chemistry marking system.

The definitions below are a shallow embedding of the TypeScript sources in
`src/backend/src` (marking engine, chemistry utilities, pipeline routes) and
of the mark-scheme structuring service.  Texts are embedded as `List Char`
(with `String` wrappers at the API surface), machine numbers used for marks
are embedded as `Nat`, and the floating-point quantities (confidences,
tolerances, similarity ratios, percentages) are embedded as `ℚ`.
-/

namespace Marking

/-- JS `String.prototype.trim` (ASCII whitespace as used by the sources). -/
def isSpaceChar (c : Char) : Bool :=
  c = ' ' || c = '\t' || c = '\n' || c = '\r'

def trimChars (l : List Char) : List Char :=
  (l.dropWhile isSpaceChar).reverse.dropWhile isSpaceChar |>.reverse

/-- JS `String.prototype.includes` on char lists (substring containment). -/
def containsSub (hay needle : List Char) : Bool :=
  match hay with
  | [] => needle.isEmpty
  | _ :: t => needle.isPrefixOf hay || containsSub t needle

/-- Character classes used by the source regexes (ASCII, as in the sources). -/
def isDigitChar (c : Char) : Bool := '0' ≤ c && c ≤ '9'

def isUpperChar (c : Char) : Bool := 'A' ≤ c && c ≤ 'Z'

def isLowerChar (c : Char) : Bool := 'a' ≤ c && c ≤ 'z'

/-- JS regex `\w`: `[A-Za-z0-9_]`. -/
def isWordChar (c : Char) : Bool :=
  isUpperChar c || isLowerChar c || isDigitChar c || c = '_'

def digitVal (c : Char) : Nat := c.toNat - 48

/-- `parseInt` on a nonempty run of decimal digits. -/
def parseNatDigits (l : List Char) : Nat := l.foldl (fun a c => a * 10 + digitVal c) 0

/-- JS `String.prototype.split` at every character satisfying `p`
(empty segments are kept, as JS does). -/
def splitOnP (p : Char → Bool) : List Char → List (List Char)
  | [] => [[]]
  | c :: t =>
    if p c then [] :: splitOnP p t
    else
      match splitOnP p t with
      | s :: rest => (c :: s) :: rest
      | [] => [[c]]

/-- Helper for `collapseSpaces`: `prevSpace` records whether the previous
character was whitespace (already emitted as a single space). -/
def collapseSpacesAux : Bool → List Char → List Char
  | _, [] => []
  | prevSpace, c :: t =>
    if isSpaceChar c then
      if prevSpace then collapseSpacesAux true t
      else ' ' :: collapseSpacesAux true t
    else c :: collapseSpacesAux false t

/-- JS `replace(/\s+/g, ' ')`: every whitespace run becomes one space. -/
def collapseSpaces (l : List Char) : List Char := collapseSpacesAux false l

namespace ChemistryUtils

/-- `replace(/^\d+\s*/, '')`: strip one leading digit run and following spaces
(no change when the text does not start with a digit). -/
def stripLeadingNum (l : List Char) : List Char :=
  if (l.takeWhile isDigitChar).isEmpty then l
  else (l.dropWhile isDigitChar).dropWhile isSpaceChar

/-- `ELEMENT_REGEX = /([A-Z][a-z]?)(\d*)/g` scanned over a compound, as
`matchAll` does: left to right, a completed match is emitted and then
characters that start no match are skipped (so a stray lowercase letter
after a finished match, as in `H2o` or `Heo`, ends and emits that match
rather than extending or cancelling it).  The accumulator is the pending
element token: its name so far, the digit accumulator, and whether a digit
has been consumed (distinguishing an absent count, which means 1, from an
explicit 0). -/
def scanElementsAux : Option (List Char × Nat × Bool) → List Char → List (String × Nat)
  | pending, [] =>
    match pending with
    | some (name, acc, hasD) => [(String.mk name, if hasD then acc else 1)]
    | none => []
  | pending, c :: t =>
    if isUpperChar c then
      match pending with
      | some (name, acc, hasD) =>
        (String.mk name, if hasD then acc else 1) :: scanElementsAux (some ([c], 0, false)) t
      | none => scanElementsAux (some ([c], 0, false)) t
    else if isLowerChar c then
      match pending with
      | some (name, _, false) =>
        if name.length = 1 then scanElementsAux (some (name ++ [c], 0, false)) t
        else (String.mk name, 1) :: scanElementsAux none t
      | some (name, acc, true) => (String.mk name, acc) :: scanElementsAux none t
      | none => scanElementsAux none t
    else if isDigitChar c then
      match pending with
      | some (name, acc, _) => scanElementsAux (some (name, acc * 10 + digitVal c, true)) t
      | none => scanElementsAux none t
    else
      match pending with
      | some (name, acc, hasD) =>
        (String.mk name, if hasD then acc else 1) :: scanElementsAux none t
      | none => scanElementsAux none t

def scanElements (l : List Char) : List (String × Nat) := scanElementsAux none l

example : scanElements "H2O".toList = [("H", 2), ("O", 1)] := by decide
example : scanElements "CaCO3".toList = [("Ca", 1), ("C", 1), ("O", 3)] := by decide
example : scanElements "2H2".toList = [("H", 2)] := by decide
example : scanElements "H2o".toList = [("H", 2)] := by decide
example : scanElements "Heo".toList = [("He", 1)] := by decide
example : scanElements "H2e3".toList = [("H", 2)] := by decide

/-- `standardizeFormula`: remove all whitespace, turn unicode subscript
digits into ASCII digits. -/
def subscriptToDigit (c : Char) : Char :=
  if c = '₀' then '0' else if c = '₁' then '1' else if c = '₂' then '2'
  else if c = '₃' then '3' else if c = '₄' then '4' else if c = '₅' then '5'
  else if c = '₆' then '6' else if c = '₇' then '7' else if c = '₈' then '8'
  else if c = '₉' then '9' else c

def standardizeFormula (l : List Char) : List Char :=
  (l.filter (fun c => !isSpaceChar c)).map subscriptToDigit

def toLowerList (l : List Char) : List Char := l.map Char.toLower

/-- `compareFormulas`: standardized forms compared case-insensitively. -/
def compareFormulas (f1 f2 : List Char) : Bool :=
  toLowerList (standardizeFormula f1) = toLowerList (standardizeFormula f2)

/-- `parseCompounds`: split a side on `+`, trim, drop empties, strip the
leading integer coefficient, drop what became empty. -/
def parseCompounds (side : List Char) : List (List Char) :=
  ((((splitOnP (fun c => c = '+') side).map trimChars).filter
      (fun c => !c.isEmpty)).map stripLeadingNum).filter (fun c => !c.isEmpty)

/-- Coefficient of one (trimmed) segment: `match(/^(\d+)/)` then `parseInt`,
defaulting to 1 when the segment does not start with a digit. -/
def coeffOfTerm (part : List Char) : Nat :=
  let t := trimChars part
  let ds := t.takeWhile isDigitChar
  if ds.isEmpty then 1 else parseNatDigits ds

/-- `extractCoefficients`: split the whole normalized equation on
`[+=→⟶]` and read a leading integer from each trimmed segment. -/
def extractCoefficients (equation : List Char) : List Nat :=
  (splitOnP (fun c => c = '+' || c = '=' || c = '→' || c = '⟶') equation).map coeffOfTerm

/-- Association list mirroring the JS object used by `getElementCounts`
(`elementCounts[element] = (elementCounts[element] || 0) + n`). -/
def addCount : List (String × Nat) → String → Nat → List (String × Nat)
  | [], e, n => [(e, n)]
  | (k, v) :: t, e, n => if k = e then (k, v + n) :: t else (k, v) :: addCount t e n

def lookup0 (m : List (String × Nat)) (e : String) : Nat :=
  match m.find? (fun kv => kv.1 = e) with
  | some kv => kv.2
  | none => 0

def addCompound (acc : List (String × Nat)) (compound : List Char) (coeff : Nat) :
    List (String × Nat) :=
  (scanElements compound).foldl (fun m ec => addCount m ec.1 (ec.2 * coeff)) acc

/-- `getElementCounts`: compounds paired positionally with coefficients;
a missing or zero coefficient counts as 1 (`coefficients[index] || 1`). -/
def getElementCountsAux : List (List Char) → List Nat → List (String × Nat) →
    List (String × Nat)
  | [], _, acc => acc
  | c :: cs, [], acc => getElementCountsAux cs [] (addCompound acc c 1)
  | c :: cs, k :: ks, acc =>
    getElementCountsAux cs ks (addCompound acc c (if k = 0 then 1 else k))

def getElementCounts (compounds : List (List Char)) (coefficients : List Nat) :
    List (String × Nat) :=
  getElementCountsAux compounds coefficients []

/-- `checkBalance`: per-element totals of both sides must agree.  The JS code
iterates the set union of the two key sets; iterating the concatenated key
lists checks exactly the same equalities. -/
def checkBalance (reactants products : List (List Char)) (coefficients : List Nat) : Bool :=
  let rm := getElementCounts reactants (coefficients.take reactants.length)
  let pm := getElementCounts products (coefficients.drop reactants.length)
  (rm.map Prod.fst ++ pm.map Prod.fst).all (fun e => lookup0 rm e = lookup0 pm e)

/-- `EQUATION_REGEX = /^(.+?)\s*[→=]\s*(.+)$/` applied to the normalized
equation (arrows already replaced by `=`).  The lazy first group makes the
match split at the first `=` that has at least one character before it and
at least one character after it. -/
def findSepIdxAux (len : Nat) : List Char → Nat → Option Nat
  | [], _ => none
  | c :: t, i =>
    if c = '=' ∧ 1 ≤ i ∧ i + 1 < len then some i else findSepIdxAux len t (i + 1)

def findSepIdx (l : List Char) : Option Nat := findSepIdxAux l.length l 0

/-- Trailing `\s*` of the lazy group: remove trailing spaces but keep at
least one character (the group is `(.+?)`). -/
def dropTrailKeepOne (l : List Char) : List Char :=
  let t := (l.reverse.dropWhile isSpaceChar).reverse
  if t.isEmpty then l.take 1 else t

/-- Greedy `\s*` after the separator, backtracking so `(.+)` keeps one char. -/
def dropLeadKeepOne (l : List Char) : List Char :=
  let t := l.dropWhile isSpaceChar
  if t.isEmpty then l.drop (l.length - 1) else t

def regexEqMatch (l : List Char) : Option (List Char × List Char) :=
  match findSepIdx l with
  | none => none
  | some k => some (dropTrailKeepOne (l.take k), dropLeadKeepOne (l.drop (k + 1)))

structure ChemicalEquation where
  reactants : List (List Char)
  products : List (List Char)
  coefficients : List Nat
  isBalanced : Bool
  deriving Repr, DecidableEq

/-- Normalization done at the top of `parseEquation`: collapse whitespace,
turn the arrow glyphs into `=`, trim. -/
def normalizeEquation (l : List Char) : List Char :=
  trimChars ((collapseSpaces l).map (fun c => if c = '→' || c = '⟶' then '=' else c))

def parseEquation (equation : List Char) : Option ChemicalEquation :=
  let normalized := normalizeEquation equation
  match regexEqMatch normalized with
  | none => none
  | some (reactantsStr, productsStr) =>
    let reactants := parseCompounds reactantsStr
    let products := parseCompounds productsStr
    if reactants.isEmpty || products.isEmpty then none
    else
      let coefficients := extractCoefficients normalized
      some ⟨reactants, products, coefficients,
        checkBalance reactants products coefficients⟩

/-- `compareEquations`: both must parse; reactant and product compound lists
(as produced by `parseCompounds`) are sorted and compared for equality.
JS `Array.prototype.sort` sorts strings; `insertionSort` by the string
order yields the same sorted list (sorted permutations are unique). -/
def sortStrings (l : List String) : List String :=
  List.insertionSort (fun a b => a ≤ b) l

def compareEquations (eq1 eq2 : List Char) : Bool :=
  match parseEquation eq1, parseEquation eq2 with
  | some p1, some p2 =>
    sortStrings (p1.reactants.map String.mk) = sortStrings (p2.reactants.map String.mk) &&
    sortStrings (p1.products.map String.mk) = sortStrings (p2.products.map String.mk)
  | _, _ => false

/-- `fuzzyCompareText` normalization: `toLowerCase().replace(/[^\w]/g, '')`. -/
def normalizeFuzzy (l : List Char) : List Char :=
  (l.map Char.toLower).filter isWordChar

def levInd (a b : Char) : Nat := if a = b then 0 else 1

/-- Inner loop of the `levenshteinDistance` dynamic program: walk the
remaining characters of `str1` with the tail of the previous row
(head = diagonal cell) and the value just written in the current row. -/
def levRowNext (c : Char) : List Char → List Nat → Nat → List Nat
  | [], _, _ => []
  | a :: as, diag :: up :: rest, left =>
    let cur := min (left + 1) (min (up + 1) (diag + levInd a c))
    cur :: levRowNext c as (up :: rest) cur
  | _ :: _, _, _ => []

/-- One row of the matrix: `matrix[j][0] = j`, then the inner loop. -/
def levRow (c : Char) (s1 : List Char) (prev : List Nat) (j : Nat) : List Nat :=
  j :: levRowNext c s1 prev j

def levRowsAux (s1 : List Char) : List Char → List Nat → Nat → List Nat
  | [], prev, _ => prev
  | c :: cs, prev, j => levRowsAux s1 cs (levRow c s1 prev (j + 1)) (j + 1)

/-- `levenshteinDistance` as the source computes it: a
`(str2.length+1) × (str1.length+1)` table built row by row; the answer is
`matrix[str2.length][str1.length]`. -/
def levenshteinDistance (str1 str2 : List Char) : Nat :=
  (levRowsAux str1 str2 (List.range (str1.length + 1)) 0).getD str1.length 0

/-- `calculateSimilarity`, with the float arithmetic embedded in `ℚ`. -/
def calculateSimilarity (str1 str2 : List Char) : ℚ :=
  let longer := if str1.length > str2.length then str1 else str2
  let shorter := if str1.length > str2.length then str2 else str1
  if longer.length = 0 then 1
  else ((longer.length : ℚ) - (levenshteinDistance longer shorter : ℚ)) / (longer.length : ℚ)

def fuzzyCompareText (text1 text2 : List Char) (tolerance : ℚ) : Bool :=
  let clean1 := normalizeFuzzy text1
  let clean2 := normalizeFuzzy text2
  if clean1 = clean2 then true
  else decide (calculateSimilarity clean1 clean2 ≥ tolerance)

/-- `parseFloat` on a run of digits and dots (the only shape
`extractNumericValue` feeds it), embedded in `ℚ`.  A run with no digits
before a second dot is `NaN`; since the marking engine only ever compares
the value (every comparison with `NaN` is false, like a failed match),
`NaN` is embedded as `none`. -/
def parseFloatRun (run : List Char) : Option ℚ :=
  let intPart := run.takeWhile isDigitChar
  let rest := run.dropWhile isDigitChar
  match rest with
  | '.' :: afterDot =>
    let frac := afterDot.takeWhile isDigitChar
    if intPart.isEmpty && frac.isEmpty then none
    else some ((parseNatDigits intPart : ℚ) + (parseNatDigits frac : ℚ) / (10 ^ frac.length : ℚ))
  | _ => if intPart.isEmpty then none else some (parseNatDigits intPart : ℚ)

/-- `extractNumericValue`: first maximal run of `[\d.]`, fed to `parseFloat`. -/
def extractNumericValue (text : List Char) : Option ℚ :=
  let isNumChar : Char → Bool := fun c => isDigitChar c || c = '.'
  let rest := text.dropWhile (fun c => !isNumChar c)
  let run := rest.takeWhile isNumChar
  if run.isEmpty then none else parseFloatRun run

end ChemistryUtils

example : (ChemistryUtils.parseEquation "2H2 + O2 = 2H2O".toList).map (·.isBalanced)
    = some true := by decide
example : (ChemistryUtils.parseEquation "H2 + O2 = H2O".toList).map (·.isBalanced)
    = some false := by decide
example : (ChemistryUtils.extractNumericValue "x = 1.25 mol".toList).isSome = true := by decide

theorem fuzzyCompareText_eq (t1 t2 : List Char) (tol : ℚ) :
    ChemistryUtils.fuzzyCompareText t1 t2 tol =
      ((ChemistryUtils.normalizeFuzzy t1 = ChemistryUtils.normalizeFuzzy t2) ||
        decide (ChemistryUtils.calculateSimilarity (ChemistryUtils.normalizeFuzzy t1)
          (ChemistryUtils.normalizeFuzzy t2) ≥ tol)) := by
  unfold ChemistryUtils.fuzzyCompareText
  by_cases h : ChemistryUtils.normalizeFuzzy t1 = ChemistryUtils.normalizeFuzzy t2 <;>
    simp [h]

theorem calculateSimilarity_eq (s1 s2 : List Char) :
    ChemistryUtils.calculateSimilarity s1 s2 =
      (if s1.length > s2.length then
        if s1.length = 0 then 1
        else ((s1.length : ℚ) - (ChemistryUtils.levenshteinDistance s1 s2 : ℚ)) / (s1.length : ℚ)
      else
        if s2.length = 0 then 1
        else ((s2.length : ℚ) - (ChemistryUtils.levenshteinDistance s2 s1 : ℚ)) /
          (s2.length : ℚ)) := by
  unfold ChemistryUtils.calculateSimilarity
  by_cases h : s1.length > s2.length <;> simp [h]

example : ChemistryUtils.fuzzyCompareText "cat".toList "cart".toList (7/10 : ℚ) = true := by
  rw [fuzzyCompareText_eq, calculateSimilarity_eq]
  rw [show ChemistryUtils.levenshteinDistance (ChemistryUtils.normalizeFuzzy "cart".toList)
      (ChemistryUtils.normalizeFuzzy "cat".toList) = 1 from by decide]
  rw [show (ChemistryUtils.normalizeFuzzy "cat".toList).length = 3 from by decide]
  rw [show (ChemistryUtils.normalizeFuzzy "cart".toList).length = 4 from by decide]
  norm_num

/-! ## Marking engine data model (src/backend/src/types/index.ts) -/

structure MarkingPoint where
  id : String
  marks : Nat
  keywords : Option (List String)
  deriving Repr, DecidableEq

structure Question where
  id : String
  maxMarks : Nat
  type : String
  correctAnswer : Option String
  acceptedAnswers : Option (List String)
  correctEquation : Option String
  markingPoints : List MarkingPoint
  balanceRequired : Bool
  stateSymbolsRequired : Bool
  deriving Repr, DecidableEq

structure MarkingRules where
  spellingTolerance : String
  deriving Repr, DecidableEq

structure MarkschemeContent where
  questions : List Question
  markingRules : MarkingRules
  deriving Repr, DecidableEq

structure AwardedPoint where
  id : String
  awarded : Bool
  reason : String
  deriving Repr, DecidableEq

structure MarkingResultData where
  questionId : String
  studentAnswer : String
  marksAwarded : Nat
  maxMarks : Nat
  feedback : String
  markingPoints : List AwardedPoint
  isCorrect : Bool
  confidence : ℚ
  deriving Repr, DecidableEq

instance : Inhabited AwardedPoint := ⟨⟨"", false, ""⟩⟩

/-! ## Marking engine (src/backend/src/services/marking-engine.ts) -/

namespace MarkingEngine

open ChemistryUtils

/-- The baseline per-point breakdown `question.markingPoints.map(mp =>
({id: mp.id, awarded: false, reason: ''}))`. -/
def blankPoints (q : Question) : List AwardedPoint :=
  q.markingPoints.map fun mp => ⟨mp.id, false, ""⟩

/-- `markingPoints[i].awarded = true; markingPoints[i].reason = r` (no-op
when the index does not exist, matching the `markingPoints[i] &&` guards). -/
def setAwarded : List AwardedPoint → Nat → String → List AwardedPoint
  | [], _, _ => []
  | p :: t, 0, r => { p with awarded := true, reason := r } :: t
  | p :: t, n + 1, r => p :: setAwarded t n r

def markMultipleChoice (q : Question) (studentAnswer : String) : MarkingResultData :=
  let cleanStudentAnswer := trimChars (studentAnswer.toList.map Char.toUpper)
  let correctAnswer := q.correctAnswer.map (fun c => c.toList.map Char.toUpper)
  let isCorrect := decide (correctAnswer = some cleanStudentAnswer)
  { questionId := q.id
    studentAnswer := studentAnswer
    marksAwarded := if isCorrect then q.maxMarks else 0
    maxMarks := q.maxMarks
    feedback :=
      if isCorrect then "Correct answer"
      else "Incorrect. The correct answer is " ++
        (match correctAnswer with
         | some c => String.mk c
         | none => "undefined")
    markingPoints := [⟨"MC1", isCorrect,
      if isCorrect then "Correct multiple choice answer" else "Incorrect answer"⟩]
    isCorrect := isCorrect
    confidence := 1 }

/-- `hasWorkingShown`: the answer contains one of the arithmetic symbols. -/
def hasWorkingShown (answer : String) : Bool :=
  ['=', '×', '÷', '+', '-', 'x', '/', '*'].any fun c => containsSub answer.toList [c]

def generateCalculationFeedback (isCorrect : Bool) (marksAwarded maxMarks : Nat) : String :=
  if isCorrect then "Correct calculation and final answer"
  else if 0 < marksAwarded then "Partial credit for correct method, but check your final answer"
  else "Incorrect answer. Check your calculation method and units"

def markCalculation (q : Question) (studentAnswer : String) (ms : MarkschemeContent) :
    MarkingResultData :=
  let numericValue := extractNumericValue studentAnswer.toList
  let hit :=
    match q.acceptedAnswers, numericValue with
    | some accs, some x =>
      accs.any fun acc =>
        match extractNumericValue acc.toList with
        | some v => decide (|x - v| < (1/100 : ℚ))
        | none => false
    | _, _ => false
  let marks1 := if hit then q.maxMarks else 0
  let pts1 :=
    if hit then q.markingPoints.map fun mp => ⟨mp.id, true, "Correct calculation and answer"⟩
    else blankPoints q
  -- partial credit: Math.floor(maxMarks * 0.5) equals maxMarks / 2 on Nat
  let partialCredit := marks1 = 0 && hasWorkingShown studentAnswer
  let marksAwarded := if partialCredit then q.maxMarks / 2 else marks1
  let pts2 := if partialCredit then setAwarded pts1 0 "Correct method shown" else pts1
  let isCorrect := decide (marksAwarded = q.maxMarks)
  { questionId := q.id
    studentAnswer := studentAnswer
    marksAwarded := marksAwarded
    maxMarks := q.maxMarks
    feedback := generateCalculationFeedback isCorrect marksAwarded q.maxMarks
    markingPoints := pts2
    isCorrect := isCorrect
    confidence := 4/5 }

/-- `hasStateSymbols`: the regex `/\([gas|liquid|solid|aqueous|g|l|s|aq]\)/i`
is a character class, so it matches `(` + one character drawn from the
letters of those words or `|` + `)`, case-insensitively. -/
def stateSymbolChar (c : Char) : Bool :=
  let d := c.toLower
  d = 'g' || d = 'a' || d = 's' || d = '|' || d = 'l' || d = 'i' || d = 'q' ||
    d = 'u' || d = 'd' || d = 'o' || d = 'e'

def hasStateSymbolsChars : List Char → Bool
  | a :: b :: c :: t =>
    (a = '(' && stateSymbolChar b && c = ')') || hasStateSymbolsChars (b :: c :: t)
  | _ => false

def hasStateSymbols (equation : String) : Bool := hasStateSymbolsChars equation.toList

/-- `extractFormulas`: split on `[→=+]`, strip a leading coefficient, strip a
trailing parenthesised group, trim; keep the nonempty results. -/
def stripTrailingParen (l : List Char) : List Char :=
  match l.reverse with
  | ')' :: t =>
    let seg := t.takeWhile fun c => c ≠ '(' && c ≠ ')'
    match t.drop seg.length with
    | '(' :: t2 => t2.reverse
    | _ => l
  | _ => l

def extractFormulas (equation : String) : List (List Char) :=
  (splitOnP (fun c => c = '→' || c = '=' || c = '+') equation.toList).filterMap fun part =>
    let f := trimChars (stripTrailingParen (ChemistryUtils.stripLeadingNum part))
    if f.isEmpty then none else some f

def hasCorrectFormulas (studentEquation correctEquation : String) : Bool :=
  let studentFormulas := extractFormulas studentEquation
  let correctFormulas := extractFormulas correctEquation
  studentFormulas.length = correctFormulas.length &&
    studentFormulas.all fun f => correctFormulas.any fun c => compareFormulas f c

def generateEquationFeedback (isCorrect : Bool) (parsed : Option ChemicalEquation)
    (q : Question) : String :=
  if isCorrect then "Correct chemical equation"
  else
    match parsed with
    | some _ =>
      let issues :=
        (if q.balanceRequired &&
            !((parsed.map (·.isBalanced)).getD false) then ["equation is not balanced"] else [])
          ++
          (if q.stateSymbolsRequired && !hasStateSymbols (q.correctEquation.getD "") then
            ["missing state symbols"] else [])
      "Partially correct, but " ++ String.intercalate " and " issues
    | none => "Invalid chemical equation format"

def markChemicalEquation (q : Question) (studentAnswer : String) (ms : MarkschemeContent) :
    MarkingResultData :=
  let mp0 := blankPoints q
  let parsedEquation := parseEquation studentAnswer.toList
  -- `correctEquation && compareEquations(...)`: an absent or empty canonical
  -- equation is falsy, so the full-credit comparison is skipped.
  let fullMatch :=
    match q.correctEquation with
    | some ce => !ce.isEmpty && compareEquations studentAnswer.toList ce.toList
    | none => false
  if fullMatch then
    let isCorrect := decide (q.maxMarks = q.maxMarks)
    { questionId := q.id
      studentAnswer := studentAnswer
      marksAwarded := q.maxMarks
      maxMarks := q.maxMarks
      feedback := generateEquationFeedback isCorrect parsedEquation q
      markingPoints := q.markingPoints.map fun mp => ⟨mp.id, true, "Correct chemical equation"⟩
      isCorrect := isCorrect
      confidence := 17/20 }
  else
    match parsedEquation with
    | some pe =>
      let b0 := decide (0 < mp0.length) &&
        hasCorrectFormulas studentAnswer (q.correctEquation.getD "")
      let pts1 := if b0 then setAwarded mp0 0 "Correct chemical formulas" else mp0
      let b1 := decide (1 < mp0.length) && q.balanceRequired && pe.isBalanced
      let pts2 := if b1 then setAwarded pts1 1 "Equation is balanced" else pts1
      let b2 := decide (2 < mp0.length) && q.stateSymbolsRequired &&
        hasStateSymbols studentAnswer
      let pts3 := if b2 then setAwarded pts2 2 "State symbols included" else pts2
      let marksAwarded := (if b0 then 1 else 0) + (if b1 then 1 else 0) + (if b2 then 1 else 0)
      let isCorrect := decide (marksAwarded = q.maxMarks)
      { questionId := q.id
        studentAnswer := studentAnswer
        marksAwarded := marksAwarded
        maxMarks := q.maxMarks
        feedback := generateEquationFeedback isCorrect parsedEquation q
        markingPoints := pts3
        isCorrect := isCorrect
        confidence := 17/20 }
    | none =>
      let isCorrect := decide (0 = q.maxMarks)
      { questionId := q.id
        studentAnswer := studentAnswer
        marksAwarded := 0
        maxMarks := q.maxMarks
        feedback := generateEquationFeedback isCorrect parsedEquation q
        markingPoints := mp0
        isCorrect := isCorrect
        confidence := 17/20 }

def generateShortAnswerFeedback (isCorrect : Bool) : String :=
  if isCorrect then "Correct answer"
  else "Incorrect or incomplete answer. Review the key concepts for this question"

/-- The keyword phase of `markShortAnswer`: one pass over the question
marking points, awarding each point whose keyword set has at least one
keyword contained in the lowercased answer. -/
def shortAnswerKeywordStep (studentAnswer : String) :
    List AwardedPoint × Nat → MarkingPoint → List AwardedPoint × Nat
  | (pts, marks), mp =>
    match mp.keywords with
    | some kws =>
      if kws.any (fun k => containsSub (toLowerList studentAnswer.toList)
          (toLowerList k.toList)) then
        match pts.findIdx? (fun p => p.id = mp.id) with
        | some i => (pts.set i ⟨mp.id, true, "Contains required keywords"⟩, marks + mp.marks)
        | none => (pts, marks)
      else (pts, marks)
    | none => (pts, marks)

def markShortAnswer (q : Question) (studentAnswer : String) (ms : MarkschemeContent) :
    MarkingResultData :=
  let tolerance : ℚ := if ms.markingRules.spellingTolerance = "strict" then 19/20 else 4/5
  let hit :=
    match q.acceptedAnswers with
    | some accs => accs.any fun acc =>
        fuzzyCompareText studentAnswer.toList acc.toList tolerance
    | none => false
  let marks1 := if hit then q.maxMarks else 0
  let pts1 :=
    if hit then q.markingPoints.map fun mp => ⟨mp.id, true, "Answer matches expected response"⟩
    else blankPoints q
  let keywordPhase := marks1 = 0 && decide (0 < q.markingPoints.length)
  let km :=
    if keywordPhase then q.markingPoints.foldl (shortAnswerKeywordStep studentAnswer) (pts1, marks1)
    else (pts1, marks1)
  let isCorrect := decide (km.2 = q.maxMarks)
  { questionId := q.id
    studentAnswer := studentAnswer
    marksAwarded := km.2
    maxMarks := q.maxMarks
    feedback := generateShortAnswerFeedback isCorrect
    markingPoints := km.1
    isCorrect := isCorrect
    confidence := 3/4 }

def generateExtendedResponseFeedback (marksAwarded maxMarks : Nat) : String :=
  -- (marksAwarded / maxMarks) * 100 in ℚ; for maxMarks = 0 the JS float
  -- arithmetic yields NaN (or infinity), while ℚ division yields 0 — both
  -- fall through to the final message except in the degenerate case
  -- maxMarks = 0 < marksAwarded, which no claim touches.
  let percentage : ℚ := ((marksAwarded : ℚ) / (maxMarks : ℚ)) * 100
  if 80 ≤ percentage then "Good response covering most key points"
  else if 60 ≤ percentage then "Adequate response but missing some important details"
  else if 40 ≤ percentage then "Basic response with some correct points, but needs more detail"
  else "Response lacks key concepts and detail required for this question"

/-- One marking point of `markExtendedResponse`: award when at least
`Math.ceil(keywords.length * 0.6)` keywords are present.  On `Nat`, the
ceiling of `0.6 * len` is `(3 * len + 4) / 5` (the double rounding in JS
produces the same integer for every list length). -/
def extendedResponseStep (studentAnswer : String) :
    List AwardedPoint × Nat → MarkingPoint → List AwardedPoint × Nat
  | (pts, marks), mp =>
    match mp.keywords with
    | some kws =>
      let keywordCount := (kws.filter fun k => containsSub (toLowerList studentAnswer.toList)
        (toLowerList k.toList)).length
      let threshold := (3 * kws.length + 4) / 5
      if threshold ≤ keywordCount then
        match pts.findIdx? (fun p => p.id = mp.id) with
        | some i =>
          (pts.set i ⟨mp.id, true,
            "Found " ++ toString keywordCount ++ "/" ++ toString kws.length ++ " key concepts"⟩,
            marks + mp.marks)
        | none => (pts, marks)
      else (pts, marks)
    | none => (pts, marks)

def markExtendedResponse (q : Question) (studentAnswer : String) (ms : MarkschemeContent) :
    MarkingResultData :=
  let km := q.markingPoints.foldl (extendedResponseStep studentAnswer) (blankPoints q, 0)
  -- `marksAwarded >= question.maxMarks * 0.8`
  let isCorrect := decide ((q.maxMarks : ℚ) * (4/5) ≤ (km.2 : ℚ))
  { questionId := q.id
    studentAnswer := studentAnswer
    marksAwarded := km.2
    maxMarks := q.maxMarks
    feedback := generateExtendedResponseFeedback km.2 q.maxMarks
    markingPoints := km.1
    isCorrect := isCorrect
    confidence := 13/20 }

def markGeneric (q : Question) (studentAnswer : String) : MarkingResultData :=
  { questionId := q.id
    studentAnswer := studentAnswer
    marksAwarded := 0
    maxMarks := q.maxMarks
    feedback := "Unable to automatically mark this question type"
    markingPoints := q.markingPoints.map fun mp => ⟨mp.id, false, "Manual marking required"⟩
    isCorrect := false
    confidence := 0 }

def noAnswerResult (q : Question) (cleanAnswer : String) : MarkingResultData :=
  { questionId := q.id
    studentAnswer := cleanAnswer
    marksAwarded := 0
    maxMarks := q.maxMarks
    feedback := "No answer provided"
    markingPoints := q.markingPoints.map fun mp => ⟨mp.id, false, "No answer provided"⟩
    isCorrect := false
    confidence := 1 }

/-- `markQuestion`.  The OpenAI fallback (`markWithOpenAI`, an external
network call) is abstracted as an oracle so that theorems can quantify over
every possible fallback behaviour; `useOpenAI` is the
`USE_OPENAI_MARKING === 'true'` flag. -/
def markQuestion (useOpenAI : Bool)
    (oracle : Question → String → MarkschemeContent → MarkingResultData)
    (q : Question) (studentAnswer : String) (ms : MarkschemeContent) : MarkingResultData :=
  let cleanAnswer := String.mk (trimChars studentAnswer.toList)
  if cleanAnswer.toList.isEmpty then noAnswerResult q cleanAnswer
  else if useOpenAI then oracle q cleanAnswer ms
  else if q.type = "multiple_choice" then markMultipleChoice q cleanAnswer
  else if q.type = "calculation" then markCalculation q cleanAnswer ms
  else if q.type = "chemical_equation" then markChemicalEquation q cleanAnswer ms
  else if q.type = "short_answer" then markShortAnswer q cleanAnswer ms
  else if q.type = "extended_response" then markExtendedResponse q cleanAnswer ms
  else markGeneric q cleanAnswer

end MarkingEngine

/-! ## Scoring aggregation and grade banding
(src/backend/src/services/marking-engine.ts lines 56-58,
src/backend/src/routes/marking.ts lines 66-67 and `calculateGrade`,
duplicated in src/backend/src/services/openaiService.ts). -/

def totalScoreOf (results : List MarkingResultData) : Nat :=
  results.foldl (fun sum r => sum + r.marksAwarded) 0

def maxScoreOf (results : List MarkingResultData) : Nat :=
  results.foldl (fun sum r => sum + r.maxMarks) 0

/-- `maxScore > 0 ? (totalScore / maxScore) * 100 : 0` in ℚ. -/
def percentageOf (results : List MarkingResultData) : ℚ :=
  if 0 < maxScoreOf results then
    ((totalScoreOf results : ℚ) / (maxScoreOf results : ℚ)) * 100
  else 0

def calculateGrade (percentage : ℚ) : String :=
  if 80 ≤ percentage then "A*"
  else if 70 ≤ percentage then "A"
  else if 60 ≤ percentage then "B"
  else if 50 ≤ percentage then "C"
  else if 40 ≤ percentage then "D"
  else if 30 ≤ percentage then "E"
  else "U"

/-! ## Document extraction adapter
(`OCRService.processPDF`, src/backend/src/services/chemistry-utils.ts file
part 2).  External HTTP traffic is abstracted as data: the upload outcome,
the per-attempt poll responses, and the downloaded text. -/

namespace OCRService

/-- One response of the status-poll `fetch`: either a non-ok HTTP response
(the loop logs and retries) or a JSON body with a `status` field and an
optional `error` field. -/
inductive PollResponse where
  | httpFail
  | ok (status : String) (errMsg : String)
  deriving Repr, DecidableEq

/-- The polling loop of `processPDF` (step 2): at most 30 attempts, one
poll per attempt; `completed` stops with a result, `error` throws, anything
else (including an HTTP failure) consumes an attempt. Returns `.ok true`
when a processed result was obtained, `.ok false` when the attempt budget
was exhausted. -/
def pollLoop (polls : Nat → PollResponse) : Nat → Nat → Except String Bool
  | _, 0 => .ok false
  | attempt, fuel + 1 =>
    match polls attempt with
    | .httpFail => pollLoop polls (attempt + 1) fuel
    | .ok status errMsg =>
      if status = "completed" then .ok true
      else if status = "error" then
        .error ("PDF processing failed: " ++ (if errMsg.isEmpty then "Unknown error" else errMsg))
      else pollLoop polls (attempt + 1) fuel

/-- The environment of one `processPDF` call. -/
structure PDFJob where
  tooLarge : Bool
  uploadOk : Bool
  uploadErrText : String
  pdfId : Option String
  polls : Nat → PollResponse
  downloadText : String

/-- Body of `processPDF` before its catch-all: any thrown error is an
`Except.error`.  Step 3 (content download) never throws out of the body:
its failures degrade to an empty text. -/
def processPDFBody (job : PDFJob) : Except String String :=
  if job.tooLarge then .error "PDF file is too large for OCR processing"
  else if !job.uploadOk then .error ("Mathpix PDF upload error: " ++ job.uploadErrText)
  else
    match job.pdfId with
    | none => .error "No PDF ID returned from MathPix. Response: null"
    | some _ =>
      match pollLoop job.polls 0 30 with
      | .error e => .error e
      | .ok false => .error "PDF processing timeout"
      | .ok true => .ok job.downloadText

/-- `processPDF`: the catch-all turns every failure into the fixed
`Failed to process PDF with OCR` error. -/
def processPDF (job : PDFJob) : Except String String :=
  match processPDFBody job with
  | .ok t => .ok t
  | .error _ => .error "Failed to process PDF with OCR"

end OCRService

/-! ## Submission pipeline
(`processSubmissionAsync`, src/backend/src/routes/markschemes-upload.ts). -/

namespace Pipeline

inductive SubStatus where
  | UPLOADED | PROCESSING | OCR_COMPLETE | MARKING | MARKING_COMPLETE | FAILED
  deriving Repr, DecidableEq

/-- One stored `MarkingResult` row (only the fields the claims mention). -/
structure StoredResult where
  questionId : String
  marksAwarded : Nat
  maxMarks : Nat
  deriving Repr, DecidableEq

/-- The durable state of one submission, together with a ghost flag
recording whether the marking stage was ever invoked. -/
structure SubmissionState where
  status : SubStatus
  errorMessage : Option String
  ocrText : Option String
  results : List StoredResult
  markingInvoked : Bool
  deriving Repr, DecidableEq

/-- The submission as `processSubmissionAsync` receives it, fresh from the
upload route: status UPLOADED, no error, no results. -/
def freshSubmission : SubmissionState :=
  { status := .UPLOADED, errorMessage := none, ocrText := none, results := [],
    markingInvoked := false }

/-- Environment of one pipeline run: the database lookups and the outcomes
of the two external stages. -/
structure PipelineEnv where
  submissionFound : Bool
  markschemePresent : Bool
  ocr : Except String String
  marking : Except String (List StoredResult)

/-- The catch-block error classification of `processSubmissionAsync`. -/
def classifyError (e : String) : String :=
  if containsSub e.toList "OpenAI API key".toList then
    "OpenAI API configuration error. Please check API key setup."
  else if containsSub e.toList "OpenAI".toList then "OpenAI marking failed: " ++ e
  else if containsSub e.toList "OCR".toList then "OCR processing failed: " ++ e
  else e

/-- The catch block: mark FAILED with the classified message, leaving the
rest of the state as the failing stage left it. -/
def failWith (s : SubmissionState) (e : String) : SubmissionState :=
  { s with status := .FAILED, errorMessage := some (classifyError e) }

/-- `processSubmissionAsync`: status PROCESSING, load submission and
markscheme, OCR (step 1), status OCR_COMPLETE, status MARKING, mark
(step 2), replace the result rows and finish MARKING_COMPLETE (step 3);
any thrown error lands in the catch block. -/
def processSubmissionAsync (env : PipelineEnv) : SubmissionState :=
  let s1 : SubmissionState := { freshSubmission with status := .PROCESSING }
  if !env.submissionFound then failWith s1 "Submission not found"
  else if !env.markschemePresent then failWith s1 "No markscheme available for this paper"
  else
    match env.ocr with
    | .error e => failWith s1 e
    | .ok text =>
      let s2 := { s1 with status := .OCR_COMPLETE, ocrText := some text }
      let s3 := { s2 with status := .MARKING, markingInvoked := true }
      match env.marking with
      | .error e => failWith s3 e
      | .ok results => { s3 with results := results, status := .MARKING_COMPLETE }

end Pipeline

/-! ## Mark-scheme structuring service
(`MarkschemeParser.validateAndCleanParsedContent`, src/unnamed/part_005, and
`processMarkschemeAsync`, src/backend/src/routes/markschemes-upload.ts). -/

namespace Structuring

/-- The model-returned JSON, as far as totals are concerned: `totalMarks`
and per-question `maxMarks` may be absent (`none`); JS `|| default` also
turns an explicit 0 into the default. -/
structure RawQuestion where
  maxMarks : Option Nat
  deriving Repr, DecidableEq

structure RawContent where
  totalMarks : Option Nat
  questions : Option (List RawQuestion)
  deriving Repr, DecidableEq

structure ParsedMarkscheme where
  totalMarks : Nat
  questionMaxMarks : List Nat
  deriving Repr, DecidableEq

/-- `validateAndCleanParsedContent` restricted to the total-marks and
question fields: `totalMarks: content.totalMarks || 0`, per-question
`maxMarks: q.maxMarks || 1`, and the recomputation
`if (markscheme.totalMarks === 0) totalMarks = sum of maxMarks`. -/
def validateAndCleanParsedContent (content : RawContent) : ParsedMarkscheme :=
  let totalMarks0 := content.totalMarks.getD 0
  let questionMaxMarks :=
    (content.questions.getD []).map fun q =>
      match q.maxMarks with
      | some 0 => 1
      | some n => n
      | none => 1
  let totalMarks :=
    if totalMarks0 = 0 then questionMaxMarks.sum else totalMarks0
  { totalMarks := totalMarks, questionMaxMarks := questionMaxMarks }

/-- What `processMarkschemeAsync` stores on the Markscheme row:
`totalMarks: parsedMarkscheme.totalMarks` and
`questionCount: parsedMarkscheme.questions.length`. -/
def storedTotalMarks (content : RawContent) : Nat :=
  (validateAndCleanParsedContent content).totalMarks

def storedQuestionCount (content : RawContent) : Nat :=
  (validateAndCleanParsedContent content).questionMaxMarks.length

end Structuring

/-! ## C6: the spec-side reading of balance checking.

The spec words the balance check per compound: each side is split on `+`,
every term carries its own leading integer coefficient (absent or zero
defaulting to 1), and the equation is balanced iff every element's
reactant-side total equals its product-side total.  The code instead pairs
`parseCompounds` output (which drops terms that carry no compound)
positionally against `extractCoefficients` output (computed over every
segment of the whole equation), which can misalign. -/

namespace EquationSpec

open ChemistryUtils

/-- Total count of element `e` in one compound (sum over the scanned
element tokens named `e`). -/
def elemCountIn (compound : List Char) (e : String) : Nat :=
  ((scanElements compound).map (fun p => if p.1 = e then p.2 else 0)).sum

/-- The coefficient written at the front of one term; absent or zero
defaults to 1. -/
def specTermCoeff (t : List Char) : Nat :=
  let ds := (trimChars t).takeWhile isDigitChar
  if ds.isEmpty || parseNatDigits ds = 0 then 1 else parseNatDigits ds

/-- The compound of one term: the trimmed term with its leading integer
coefficient stripped. -/
def specTermCompound (t : List Char) : List Char := stripLeadingNum (trimChars t)

/-- A `+`-separated segment that actually carries a compound. -/
def goodTerm (t : List Char) : Bool :=
  !(trimChars t).isEmpty && !(stripLeadingNum (trimChars t)).isEmpty

def specSideTerms (side : List Char) : List (List Char) :=
  (splitOnP (fun c => c = '+') side).filter goodTerm

/-- Reactant-side or product-side total for one element: the sum over the
side terms of coefficient × element count of the term compound. -/
def sideTotal (terms : List (List Char)) (e : String) : Nat :=
  (terms.map (fun t => specTermCoeff t * elemCountIn (specTermCompound t) e)).sum

def specReactantTotal (s : List Char) (e : String) : Nat :=
  match regexEqMatch (normalizeEquation s) with
  | some (r, _) => sideTotal (specSideTerms r) e
  | none => 0

def specProductTotal (s : List Char) (e : String) : Nat :=
  match regexEqMatch (normalizeEquation s) with
  | some (_, p) => sideTotal (specSideTerms p) e
  | none => 0

/-- The alignment condition: the normalized equation has exactly one
separator and every `+`-separated segment carries a compound. -/
def wellFormedEquation (s : List Char) : Bool :=
  let n := normalizeEquation s
  ((n.filter (fun c => c = '=')).length = 1) &&
  (splitOnP (fun c => c = '+' || c = '=') n).all goodTerm

end EquationSpec

/-! ### Splitting and trimming lemmas used by the C6 equivalence proof. -/

theorem splitOnP_ne_nil (p : Char → Bool) (l : List Char) : splitOnP p l ≠ [] := by
  cases l with
  | nil => simp [splitOnP]
  | cons c t =>
    rw [splitOnP]
    split_ifs
    · simp
    · cases h : splitOnP p t <;> simp

theorem splitOnP_cons (p : Char → Bool) (c : Char) (t : List Char) :
    splitOnP p (c :: t) =
      if p c then [] :: splitOnP p t
      else (c :: (splitOnP p t).headD []) :: (splitOnP p t).tail := by
  rw [splitOnP]
  cases h : splitOnP p t with
  | nil => exact absurd h (splitOnP_ne_nil p t)
  | cons s rest => simp [h]

/-- Splitting distributes over a separator character. -/
theorem splitOnP_append_sep (p : Char → Bool) (c : Char) (hp : p c = true) :
    ∀ x y : List Char, splitOnP p (x ++ c :: y) = splitOnP p x ++ splitOnP p y := by
  intro x
  induction x with
  | nil => intro y; simp [splitOnP, hp]
  | cons a t ih =>
    intro y
    rw [List.cons_append, splitOnP_cons, splitOnP_cons a t (p := p)]
    by_cases ha : p a
    · simp [ha, ih y]
    · simp only [ha, if_false]
      rw [ih y]
      have h1 := splitOnP_ne_nil p t
      cases h : splitOnP p t with
      | nil => exact absurd h h1
      | cons s rest => simp [h]

/-- Splitting depends only on the predicate values on the characters. -/
theorem splitOnP_congr (p q : Char → Bool) :
    ∀ l : List Char, (∀ c ∈ l, p c = q c) → splitOnP p l = splitOnP q l := by
  intro l
  induction l with
  | nil => intro _; rfl
  | cons a t ih =>
    intro h
    have ha := h a (by simp)
    rw [splitOnP_cons, splitOnP_cons, ih (fun c hc => h c (by simp [hc])), ha]

/-- Splitting a separator-free text yields the single segment. -/
theorem splitOnP_no_sep (p : Char → Bool) :
    ∀ l : List Char, (∀ c ∈ l, p c = false) → splitOnP p l = [l] := by
  intro l
  induction l with
  | nil => intro _; rfl
  | cons a t ih =>
    intro h
    rw [splitOnP_cons, h a (by simp), ih (fun c hc => h c (by simp [hc]))]
    simp

/-- Append a separator-free suffix: only the last segment grows. -/
def modifyLastApp : List (List Char) → List Char → List (List Char)
  | [], b => [b]
  | [x], b => [x ++ b]
  | x :: y :: xs, b => x :: modifyLastApp (y :: xs) b

theorem modifyLastApp_length : ∀ (L : List (List Char)) (b : List Char), L ≠ [] →
    (modifyLastApp L b).length = L.length := by
  intro L
  induction L with
  | nil => intro b h; exact absurd rfl h
  | cons x xs ih =>
    intro b _
    cases xs with
    | nil => simp [modifyLastApp]
    | cons y ys => simp [modifyLastApp, ih b (by simp)]

theorem splitOnP_append_no_sep (p : Char → Bool) (b : List Char)
    (hb : ∀ c ∈ b, p c = false) :
    ∀ a : List Char, splitOnP p (a ++ b) = modifyLastApp (splitOnP p a) b := by
  intro a
  induction a with
  | nil =>
    rw [List.nil_append, splitOnP_no_sep p b hb]
    rfl
  | cons c t ih =>
    rw [List.cons_append, splitOnP_cons, splitOnP_cons c t (p := p)]
    by_cases hc : p c
    · simp only [hc, if_true]
      rw [ih]
      have h1 := splitOnP_ne_nil p t
      cases h : splitOnP p t with
      | nil => exact absurd h h1
      | cons s rest =>
        cases rest <;> simp [modifyLastApp]
    · simp only [hc, if_false]
      rw [ih]
      have h1 := splitOnP_ne_nil p t
      cases h : splitOnP p t with
      | nil => exact absurd h h1
      | cons s rest =>
        cases rest <;> simp [modifyLastApp]

/-- Prepend a separator-free prefix: only the first segment grows. -/
theorem splitOnP_no_sep_append (p : Char → Bool) (b : List Char)
    (hb : ∀ c ∈ b, p c = false) :
    ∀ a : List Char,
      splitOnP p (b ++ a) = (b ++ (splitOnP p a).headD []) :: (splitOnP p a).tail := by
  induction b with
  | nil =>
    intro a
    have h1 := splitOnP_ne_nil p a
    cases h : splitOnP p a with
    | nil => exact absurd h h1
    | cons s rest => simp [h]
  | cons c t ih =>
    intro a
    rw [List.cons_append, splitOnP_cons, hb c (by simp),
      ih (fun d hd => hb d (by simp [hd])) a]
    simp

theorem mem_trimChars {c : Char} {l : List Char} (h : c ∈ trimChars l) : c ∈ l := by
  unfold trimChars at h
  simp only [List.mem_reverse] at h
  have h2 := List.dropWhile_sublist (l := (l.dropWhile isSpaceChar).reverse) (p := isSpaceChar)
  have h3 : c ∈ (l.dropWhile isSpaceChar).reverse := h2.mem h
  rw [List.mem_reverse] at h3
  exact (List.dropWhile_sublist _).mem h3

theorem trimChars_append_spaces {sp : List Char} (hsp : ∀ c ∈ sp, isSpaceChar c = true)
    (x : List Char) : trimChars (x ++ sp) = trimChars x := by
  unfold trimChars
  rw [List.dropWhile_append]
  split_ifs with h
  · rw [List.isEmpty_iff] at h
    have hnil : sp.dropWhile isSpaceChar = [] := List.dropWhile_eq_nil_iff.mpr hsp
    rw [h, hnil]
  · rw [List.reverse_append]
    rw [List.dropWhile_append_of_pos (by intro a ha; exact hsp a (List.mem_reverse.mp ha))]

theorem trimChars_spaces_append {sp : List Char} (hsp : ∀ c ∈ sp, isSpaceChar c = true)
    (x : List Char) : trimChars (sp ++ x) = trimChars x := by
  unfold trimChars
  rw [List.dropWhile_append_of_pos hsp]

/-- `dropTrailKeepOne` on text that is not all spaces is plain
right-trimming, and the text decomposes as the trimmed part plus spaces. -/
theorem dropTrailKeepOne_spec {l : List Char}
    (h : ¬∀ c ∈ l, isSpaceChar c = true) :
    ChemistryUtils.dropTrailKeepOne l = (l.reverse.dropWhile isSpaceChar).reverse ∧
      (∃ sp, (∀ c ∈ sp, isSpaceChar c = true) ∧
        l = (l.reverse.dropWhile isSpaceChar).reverse ++ sp) := by
  have hne : l.reverse.dropWhile isSpaceChar ≠ [] := by
    intro hc
    rw [List.dropWhile_eq_nil_iff] at hc
    exact h (fun c hcl => hc c (List.mem_reverse.mpr hcl))
  have hne2 : ¬((l.reverse.dropWhile isSpaceChar).reverse.isEmpty = true) := by
    intro hc
    rw [List.isEmpty_iff, List.reverse_eq_nil_iff] at hc
    exact hne hc
  constructor
  · simp only [ChemistryUtils.dropTrailKeepOne]
    rw [if_neg hne2]
  · refine ⟨(l.reverse.takeWhile isSpaceChar).reverse, ?_, ?_⟩
    · intro c hc
      exact List.mem_takeWhile_imp (List.mem_reverse.mp hc)
    · conv_lhs => rw [show l = l.reverse.reverse from (List.reverse_reverse l).symm]
      rw [← List.reverse_append, List.takeWhile_append_dropWhile]

/-- `dropLeadKeepOne` on text that is not all spaces is plain
left-trimming, and the text decomposes as spaces plus the trimmed part. -/
theorem dropLeadKeepOne_spec {l : List Char}
    (h : ¬∀ c ∈ l, isSpaceChar c = true) :
    ChemistryUtils.dropLeadKeepOne l = l.dropWhile isSpaceChar ∧
      (∃ sp, (∀ c ∈ sp, isSpaceChar c = true) ∧ l = sp ++ l.dropWhile isSpaceChar) := by
  have hne : l.dropWhile isSpaceChar ≠ [] := by
    intro hc
    rw [List.dropWhile_eq_nil_iff] at hc
    exact h hc
  have hne2 : ¬((l.dropWhile isSpaceChar).isEmpty = true) := by
    intro hc
    rw [List.isEmpty_iff] at hc
    exact hne hc
  constructor
  · simp only [ChemistryUtils.dropLeadKeepOne]
    rw [if_neg hne2]
  · refine ⟨l.takeWhile isSpaceChar, ?_, ?_⟩
    · intro c hc
      exact List.mem_takeWhile_imp hc
    · rw [List.takeWhile_append_dropWhile]

/-- What a successful separator search means: the text splits at an `=`
that has at least one character on each side. -/
theorem findSepIdxAux_some (len : Nat) :
    ∀ (l : List Char) (i j : Nat), ChemistryUtils.findSepIdxAux len l i = some j →
      ∃ rp pp : List Char, l = rp ++ '=' :: pp ∧ i + rp.length = j ∧ 1 ≤ j ∧ j + 1 < len := by
  intro l
  induction l with
  | nil => intro i j h; simp [ChemistryUtils.findSepIdxAux] at h
  | cons c t ih =>
    intro i j h
    rw [ChemistryUtils.findSepIdxAux] at h
    split_ifs at h with hc
    · obtain ⟨hceq, hi1, hilen⟩ := hc
      obtain rfl : i = j := by simpa using h
      exact ⟨[], t, by simp [hceq], by simp, hi1, hilen⟩
    · obtain ⟨rp, pp, hl, hlen, h1, h2⟩ := ih (i + 1) j h
      refine ⟨c :: rp, pp, by simp [hl], ?_, h1, h2⟩
      simp only [List.length_cons]
      omega

/-- The effective coefficient: `coefficients[index] || 1`. -/
def effCoeff (k : Nat) : Nat := if k = 0 then 1 else k

/-- The element total the balance check accumulates: compounds paired
positionally with coefficients (missing coefficients count as 1). -/
def pairedCount : List (List Char) → List Nat → String → Nat
  | [], _, _ => 0
  | c :: cs, [], e => EquationSpec.elemCountIn c e * 1 + pairedCount cs [] e
  | c :: cs, k :: ks, e => EquationSpec.elemCountIn c e * effCoeff k + pairedCount cs ks e

theorem lookup0_nil (e : String) : ChemistryUtils.lookup0 [] e = 0 := rfl

theorem lookup0_cons (k : String) (v : Nat) (m : List (String × Nat)) (e : String) :
    ChemistryUtils.lookup0 ((k, v) :: m) e =
      if k = e then v else ChemistryUtils.lookup0 m e := by
  by_cases h : k = e <;> simp [ChemistryUtils.lookup0, List.find?_cons, h]

theorem lookup0_addCount (m : List (String × Nat)) (key : String) (n : Nat) (e : String) :
    ChemistryUtils.lookup0 (ChemistryUtils.addCount m key n) e =
      ChemistryUtils.lookup0 m e + (if key = e then n else 0) := by
  induction m with
  | nil =>
    by_cases h : key = e <;>
      simp [ChemistryUtils.addCount, lookup0_cons, lookup0_nil, h]
  | cons kv t ih =>
    obtain ⟨k, v⟩ := kv
    by_cases hk : k = key
    · subst hk
      rw [ChemistryUtils.addCount, if_pos rfl, lookup0_cons, lookup0_cons]
      by_cases he : k = e <;> simp [he]
    · rw [ChemistryUtils.addCount, if_neg hk, lookup0_cons, lookup0_cons, ih]
      by_cases he : k = e
      · have hke : ¬key = e := fun hc => hk (hc ▸ he.symm ▸ rfl)
        simp [he, hke]
      · simp [he]

theorem lookup0_scan_fold (coeff : Nat) (e : String) :
    ∀ (items : List (String × Nat)) (acc : List (String × Nat)),
      ChemistryUtils.lookup0
        (items.foldl (fun m ec => ChemistryUtils.addCount m ec.1 (ec.2 * coeff)) acc) e =
      ChemistryUtils.lookup0 acc e +
        ((items.map (fun p => if p.1 = e then p.2 else 0)).sum) * coeff := by
  intro items
  induction items with
  | nil => intro acc; simp
  | cons p t ih =>
    intro acc
    rw [List.foldl_cons, ih, lookup0_addCount]
    by_cases h : p.1 = e <;> simp [h, Nat.add_mul, Nat.add_assoc]

theorem lookup0_addCompound (acc : List (String × Nat)) (c : List Char) (coeff : Nat)
    (e : String) :
    ChemistryUtils.lookup0 (ChemistryUtils.addCompound acc c coeff) e =
      ChemistryUtils.lookup0 acc e + EquationSpec.elemCountIn c e * coeff := by
  unfold ChemistryUtils.addCompound EquationSpec.elemCountIn
  exact lookup0_scan_fold coeff e _ acc

theorem lookup0_gecAux (e : String) :
    ∀ (cs : List (List Char)) (ks : List Nat) (acc : List (String × Nat)),
      ChemistryUtils.lookup0 (ChemistryUtils.getElementCountsAux cs ks acc) e =
        ChemistryUtils.lookup0 acc e + pairedCount cs ks e := by
  intro cs
  induction cs with
  | nil => intro ks acc; simp [ChemistryUtils.getElementCountsAux, pairedCount]
  | cons c t ih =>
    intro ks acc
    cases ks with
    | nil =>
      rw [ChemistryUtils.getElementCountsAux, ih, lookup0_addCompound]
      simp [pairedCount, Nat.add_assoc]
    | cons k kt =>
      rw [ChemistryUtils.getElementCountsAux, ih, lookup0_addCompound]
      simp [pairedCount, effCoeff, Nat.add_assoc]

theorem lookup0_getElementCounts (cs : List (List Char)) (ks : List Nat) (e : String) :
    ChemistryUtils.lookup0 (ChemistryUtils.getElementCounts cs ks) e = pairedCount cs ks e := by
  unfold ChemistryUtils.getElementCounts
  rw [lookup0_gecAux]
  simp [ChemistryUtils.lookup0]

theorem lookup0_eq_zero_of_not_mem (m : List (String × Nat)) (e : String)
    (h : e ∉ m.map Prod.fst) :
    ChemistryUtils.lookup0 m e = 0 := by
  unfold ChemistryUtils.lookup0
  have hfind : m.find? (fun kv => kv.1 = e) = none := by
    rw [List.find?_eq_none]
    intro kv hkv
    simp only [decide_eq_true_eq]
    intro hc
    exact h (List.mem_map.mpr ⟨kv, hkv, hc⟩)
  rw [hfind]

/-- `checkBalance` holds iff every element (не just the keys) has equal
paired totals on the two sides. -/
theorem checkBalance_iff (R P : List (List Char)) (ks : List Nat) :
    ChemistryUtils.checkBalance R P ks = true ↔
      ∀ e : String, pairedCount R (ks.take R.length) e = pairedCount P (ks.drop R.length) e := by
  unfold ChemistryUtils.checkBalance
  rw [List.all_eq_true]
  constructor
  · intro h e
    by_cases he : e ∈ (ChemistryUtils.getElementCounts R (ks.take R.length)).map Prod.fst ++
        (ChemistryUtils.getElementCounts P (ks.drop R.length)).map Prod.fst
    · have := h e he
      rw [decide_eq_true_eq] at this
      rw [← lookup0_getElementCounts R (ks.take R.length) e,
        ← lookup0_getElementCounts P (ks.drop R.length) e]
      exact this
    · rw [List.mem_append] at he
      push_neg at he
      rw [← lookup0_getElementCounts R (ks.take R.length) e,
        ← lookup0_getElementCounts P (ks.drop R.length) e,
        lookup0_eq_zero_of_not_mem _ _ he.1, lookup0_eq_zero_of_not_mem _ _ he.2]
  · intro h e _
    rw [decide_eq_true_eq, lookup0_getElementCounts, lookup0_getElementCounts]
    exact h e

theorem isSpaceChar_ne_plus {c : Char} (h : isSpaceChar c = true) : (c = '+') = False := by
  simp only [eq_iff_iff, iff_false]
  intro hc
  subst hc
  simp [isSpaceChar] at h

theorem trimChars_all_spaces {l : List Char} (h : ∀ c ∈ l, isSpaceChar c = true) :
    trimChars l = [] := by
  unfold trimChars
  rw [List.dropWhile_eq_nil_iff.mpr h]
  simp

/-- Lists with equal trimmed forms are interchangeable for every
trim-respecting function. -/
theorem map_congr_of_trim_eq {α : Type} (g : List Char → α)
    (hg : ∀ t1 t2, trimChars t1 = trimChars t2 → g t1 = g t2) :
    ∀ L1 L2 : List (List Char), L1.map trimChars = L2.map trimChars →
      L1.map g = L2.map g := by
  intro L1
  induction L1 with
  | nil =>
    intro L2 h
    cases L2 with
    | nil => rfl
    | cons x xs => simp at h
  | cons x xs ih =>
    intro L2 h
    cases L2 with
    | nil => simp at h
    | cons y ys =>
      simp only [List.map_cons, List.cons.injEq] at h ⊢
      exact ⟨hg x y h.1, ih ys h.2⟩

theorem map_trim_modifyLastApp {sp : List Char} (hsp : ∀ c ∈ sp, isSpaceChar c = true) :
    ∀ L : List (List Char), L ≠ [] →
      (modifyLastApp L sp).map trimChars = L.map trimChars := by
  intro L
  induction L with
  | nil => intro h; exact absurd rfl h
  | cons x xs ih =>
    intro _
    cases xs with
    | nil => simp [modifyLastApp, trimChars_append_spaces hsp]
    | cons y ys => simp [modifyLastApp, ih (by simp)]

/-- A trailing all-space suffix changes no trimmed segment. -/
theorem map_trim_split_append_spaces {sp : List Char}
    (hsp : ∀ c ∈ sp, isSpaceChar c = true) (a : List Char) :
    (splitOnP (fun c => c = '+') (a ++ sp)).map trimChars =
      (splitOnP (fun c => c = '+') a).map trimChars := by
  rw [splitOnP_append_no_sep _ sp
    (fun c hc => by rw [decide_eq_false_iff_not]; simp [isSpaceChar_ne_plus (hsp c hc)])]
  exact map_trim_modifyLastApp hsp _ (splitOnP_ne_nil _ a)

/-- A leading all-space prefix changes no trimmed segment. -/
theorem map_trim_split_spaces_append {sp : List Char}
    (hsp : ∀ c ∈ sp, isSpaceChar c = true) (a : List Char) :
    (splitOnP (fun c => c = '+') (sp ++ a)).map trimChars =
      (splitOnP (fun c => c = '+') a).map trimChars := by
  rw [splitOnP_no_sep_append _ sp
    (fun c hc => by rw [decide_eq_false_iff_not]; simp [isSpaceChar_ne_plus (hsp c hc)]) a]
  have h1 := splitOnP_ne_nil (fun c => c = '+') a
  cases h : splitOnP (fun c => c = '+') a with
  | nil => exact absurd h h1
  | cons s rest =>
    simp [h, trimChars_spaces_append hsp]

theorem coeffOfTerm_congr {t1 t2 : List Char} (h : trimChars t1 = trimChars t2) :
    ChemistryUtils.coeffOfTerm t1 = ChemistryUtils.coeffOfTerm t2 := by
  unfold ChemistryUtils.coeffOfTerm
  rw [h]

/-- `effCoeff ∘ coeffOfTerm` is the per-term coefficient of the spec. -/
theorem effCoeff_coeffOfTerm (t : List Char) :
    effCoeff (ChemistryUtils.coeffOfTerm t) = EquationSpec.specTermCoeff t := by
  unfold effCoeff ChemistryUtils.coeffOfTerm EquationSpec.specTermCoeff
  by_cases h1 : ((trimChars t).takeWhile isDigitChar).isEmpty
  · simp [h1]
  · by_cases h2 : parseNatDigits ((trimChars t).takeWhile isDigitChar) = 0 <;>
      simp [h1, h2]

/-- The balance totals of a compound list paired with its own term list
coefficients are the per-term totals of the spec. -/
theorem pairedCount_maps (e : String) : ∀ ts : List (List Char),
    pairedCount (ts.map (fun t => ChemistryUtils.stripLeadingNum (trimChars t)))
      (ts.map ChemistryUtils.coeffOfTerm) e = EquationSpec.sideTotal ts e := by
  intro ts
  induction ts with
  | nil => simp [pairedCount, EquationSpec.sideTotal]
  | cons t ts ih =>
    simp only [List.map_cons, pairedCount]
    rw [ih, effCoeff_coeffOfTerm]
    simp only [EquationSpec.sideTotal, List.map_cons, List.sum_cons,
      EquationSpec.specTermCompound]
    rw [Nat.mul_comm]

theorem goodTerm_parts {t : List Char} (h : EquationSpec.goodTerm t = true) :
    (trimChars t).isEmpty = false ∧
      (ChemistryUtils.stripLeadingNum (trimChars t)).isEmpty = false := by
  unfold EquationSpec.goodTerm at h
  simp only [Bool.and_eq_true, Bool.not_eq_true'] at h
  exact h

/-- All segments good means `parseCompounds` keeps every segment. -/
theorem parseCompounds_of_good (side : List Char)
    (h : ∀ t ∈ splitOnP (fun c => c = '+') side, EquationSpec.goodTerm t = true) :
    ChemistryUtils.parseCompounds side =
      (splitOnP (fun c => c = '+') side).map
        (fun t => ChemistryUtils.stripLeadingNum (trimChars t)) := by
  unfold ChemistryUtils.parseCompounds
  have h1 : ((splitOnP (fun c => c = '+') side).map trimChars).filter
      (fun c => !c.isEmpty) = (splitOnP (fun c => c = '+') side).map trimChars := by
    rw [List.filter_eq_self]
    intro x hx
    obtain ⟨t, ht, rfl⟩ := List.mem_map.mp hx
    simp [(goodTerm_parts (h t ht)).1]
  rw [h1, List.map_map]
  rw [List.filter_eq_self.mpr]
  · rfl
  · intro x hx
    obtain ⟨t, ht, rfl⟩ := List.mem_map.mp hx
    simp [(goodTerm_parts (h t ht)).2]

/-- All segments good means the spec keeps every segment too. -/
theorem specSideTerms_of_good (side : List Char)
    (h : ∀ t ∈ splitOnP (fun c => c = '+') side, EquationSpec.goodTerm t = true) :
    EquationSpec.specSideTerms side = splitOnP (fun c => c = '+') side := by
  unfold EquationSpec.specSideTerms
  exact List.filter_eq_self.mpr h

theorem goodTerm_congr {t1 t2 : List Char} (h : trimChars t1 = trimChars t2) :
    EquationSpec.goodTerm t1 = EquationSpec.goodTerm t2 := by
  unfold EquationSpec.goodTerm
  rw [h]

theorem sideTotal_term_congr (e : String) {t1 t2 : List Char}
    (h : trimChars t1 = trimChars t2) :
    EquationSpec.specTermCoeff t1 *
        EquationSpec.elemCountIn (EquationSpec.specTermCompound t1) e =
      EquationSpec.specTermCoeff t2 *
        EquationSpec.elemCountIn (EquationSpec.specTermCompound t2) e := by
  unfold EquationSpec.specTermCoeff EquationSpec.specTermCompound
  rw [h]

theorem normalizeEquation_no_arrows (s : List Char) :
    ∀ c ∈ ChemistryUtils.normalizeEquation s, ¬c = '→' ∧ ¬c = '⟶' := by
  intro c hc
  unfold ChemistryUtils.normalizeEquation at hc
  have h2 := mem_trimChars hc
  obtain ⟨d, _, hmap⟩ := List.mem_map.mp h2
  split_ifs at hmap with hd
  · constructor <;> intro hcc <;> rw [← hmap] at hcc <;> simp at hcc
  · simp only [Bool.or_eq_true, decide_eq_true_eq] at hd
    push_neg at hd
    subst hmap
    exact hd

/-! ## Theorems -/

/-- A concrete stand-in for the OpenAI fallback, used when a theorem needs
a closed `markQuestion` call with the fallback disabled (the flag is false,
so the oracle is never consulted). -/
def dummyOracle : Question → String → MarkschemeContent → MarkingResultData :=
  fun q a _ => MarkingEngine.markGeneric q a

/-- C5: an empty or whitespace-only student answer makes `markQuestion`
return 0 marks with confidence 1.0, `isCorrect = false` and feedback
`No answer provided`, for every question type, every rule set, every
fallback flag and every fallback behaviour (so neither the per-type logic
nor the language-model fallback is consulted). -/
theorem c5_empty_answer_short_circuits (useOpenAI : Bool)
    (oracle : Question → String → MarkschemeContent → MarkingResultData)
    (q : Question) (a : String) (ms : MarkschemeContent)
    (h : trimChars a.toList = []) :
    (MarkingEngine.markQuestion useOpenAI oracle q a ms).marksAwarded = 0 ∧
    (MarkingEngine.markQuestion useOpenAI oracle q a ms).confidence = 1 ∧
    (MarkingEngine.markQuestion useOpenAI oracle q a ms).isCorrect = false ∧
    (MarkingEngine.markQuestion useOpenAI oracle q a ms).feedback = "No answer provided" ∧
    (MarkingEngine.markQuestion useOpenAI oracle q a ms).markingPoints =
      q.markingPoints.map (fun mp => ⟨mp.id, false, "No answer provided"⟩) := by
  have hd : trimChars a.data = [] := h
  simp [MarkingEngine.markQuestion, MarkingEngine.noAnswerResult, hd]

theorem c5_witness :
    trimChars "   ".toList = [] ∧
    (MarkingEngine.markQuestion true dummyOracle
      ⟨"01.1", 3, "short_answer", none, none, none, [⟨"M1", 1, some ["salt"]⟩], false, false⟩
      "   " ⟨[], ⟨"moderate"⟩⟩).marksAwarded = 0 := by
  refine ⟨by decide, (c5_empty_answer_short_circuits true dummyOracle _ "   " _ (by decide)).1⟩

/-- C10: a question whose type is none of the five recognized ones, marked
with a non-empty answer and the fallback disabled, yields the
`markGeneric` degraded result: 0 marks, not correct, confidence 0, the
fixed feedback, and every marking point refused with reason
`Manual marking required`; no error is raised and no marks are awarded. -/
theorem c10_unknown_type_generic
    (oracle : Question → String → MarkschemeContent → MarkingResultData)
    (q : Question) (a : String) (ms : MarkschemeContent)
    (hne : trimChars a.toList ≠ [])
    (h1 : q.type ≠ "multiple_choice") (h2 : q.type ≠ "calculation")
    (h3 : q.type ≠ "chemical_equation") (h4 : q.type ≠ "short_answer")
    (h5 : q.type ≠ "extended_response") :
    (MarkingEngine.markQuestion false oracle q a ms).marksAwarded = 0 ∧
    (MarkingEngine.markQuestion false oracle q a ms).isCorrect = false ∧
    (MarkingEngine.markQuestion false oracle q a ms).confidence = 0 ∧
    (MarkingEngine.markQuestion false oracle q a ms).feedback =
      "Unable to automatically mark this question type" ∧
    (MarkingEngine.markQuestion false oracle q a ms).markingPoints =
      q.markingPoints.map (fun mp => ⟨mp.id, false, "Manual marking required"⟩) := by
  have hd : ¬trimChars a.data = [] := hne
  simp [MarkingEngine.markQuestion, MarkingEngine.markGeneric, h1, h2, h3, h4, h5, hd]

theorem c10_witness :
    trimChars "an answer".toList ≠ [] ∧
    (MarkingEngine.markQuestion false dummyOracle
      ⟨"02.1", 2, "data_analysis", none, none, none, [⟨"M1", 2, some ["graph"]⟩], false, false⟩
      "an answer" ⟨[], ⟨"moderate"⟩⟩).marksAwarded = 0 := by
  refine ⟨by decide, (c10_unknown_type_generic dummyOracle _ "an answer" _
    (by decide) (by decide) (by decide) (by decide) (by decide) (by decide)).1⟩

/-- C1 (failing input): the grading engine does not cap summed
per-marking-point marks at the question maximum.  For a short-answer
question worth 1 mark whose two marking points carry 1 mark each, an
answer containing both keyword sets is awarded 2 marks — strictly more
than `maxMarks`, contradicting the invariant 0 ≤ marksAwarded ≤ maxMarks. -/
theorem c1_marks_can_exceed_max :
    (MarkingEngine.markQuestion false dummyOracle
      ⟨"03.1", 1, "short_answer", none, none, none,
        [⟨"M1", 1, some ["alpha"]⟩, ⟨"M2", 1, some ["beta"]⟩], false, false⟩
      "alpha beta" ⟨[], ⟨"moderate"⟩⟩).marksAwarded = 2 ∧
    (MarkingEngine.markQuestion false dummyOracle
      ⟨"03.1", 1, "short_answer", none, none, none,
        [⟨"M1", 1, some ["alpha"]⟩, ⟨"M2", 1, some ["beta"]⟩], false, false⟩
      "alpha beta" ⟨[], ⟨"moderate"⟩⟩).maxMarks = 1 := by
  constructor <;> decide

/-- C4 (counterexample): the structuring service trusts a nonzero
model-reported total.  With model content reporting `totalMarks = 42` over
a single question worth 10, the stored total is 42, not the recomputed
sum 10. -/
theorem c4_model_total_trusted :
    Structuring.storedTotalMarks ⟨some 42, some [⟨some 10⟩]⟩ = 42 ∧
    (Structuring.validateAndCleanParsedContent
      ⟨some 42, some [⟨some 10⟩]⟩).questionMaxMarks.sum = 10 ∧
    Structuring.storedTotalMarks ⟨some 42, some [⟨some 10⟩]⟩ ≠
      (Structuring.validateAndCleanParsedContent
        ⟨some 42, some [⟨some 10⟩]⟩).questionMaxMarks.sum := by
  refine ⟨by decide, by decide, by decide⟩

/-- C4 (amended): the stored question count always equals the length of the
returned question list, and the stored total equals the recomputed sum of
question max-marks only when the model-reported total is absent or zero;
a nonzero model-reported total is stored as-is. -/
theorem c4_amended_total_recomputed_only_when_missing (content : Structuring.RawContent) :
    Structuring.storedQuestionCount content = (content.questions.getD []).length ∧
    (content.totalMarks.getD 0 = 0 →
      Structuring.storedTotalMarks content =
        (Structuring.validateAndCleanParsedContent content).questionMaxMarks.sum) ∧
    (∀ t, content.totalMarks = some t → t ≠ 0 → Structuring.storedTotalMarks content = t) := by
  refine ⟨by simp [Structuring.storedQuestionCount,
    Structuring.validateAndCleanParsedContent], ?_, ?_⟩
  · intro h
    simp [Structuring.storedTotalMarks, Structuring.validateAndCleanParsedContent, h]
  · intro t ht hnz
    simp [Structuring.storedTotalMarks, Structuring.validateAndCleanParsedContent, ht, hnz]

theorem c4_amended_witness :
    Structuring.storedQuestionCount ⟨some 7, some [⟨some 3⟩, ⟨some 4⟩]⟩ = 2 ∧
    Structuring.storedTotalMarks ⟨some 7, some [⟨some 3⟩, ⟨some 4⟩]⟩ = 7 := by
  refine ⟨(c4_amended_total_recomputed_only_when_missing _).1.trans (by decide),
    (c4_amended_total_recomputed_only_when_missing _).2.2 7 rfl (by decide)⟩

/-- C3 (counterexample): for extended_response questions `isCorrect` is not
`marksAwarded = maxMarks`.  An extended-response question worth 5 with two
2-mark keyword points, answered with both keywords, is awarded 4 of 5
marks yet reported correct (the code tests `marks ≥ 0.8 × max`). -/
theorem c3_extended_response_isCorrect_not_max :
    (MarkingEngine.markQuestion false dummyOracle
      ⟨"04.1", 5, "extended_response", none, none, none,
        [⟨"M1", 2, some ["alpha"]⟩, ⟨"M2", 2, some ["beta"]⟩], false, false⟩
      "alpha beta" ⟨[], ⟨"moderate"⟩⟩).isCorrect = true ∧
    (MarkingEngine.markQuestion false dummyOracle
      ⟨"04.1", 5, "extended_response", none, none, none,
        [⟨"M1", 2, some ["alpha"]⟩, ⟨"M2", 2, some ["beta"]⟩], false, false⟩
      "alpha beta" ⟨[], ⟨"moderate"⟩⟩).marksAwarded ≠
    (MarkingEngine.markQuestion false dummyOracle
      ⟨"04.1", 5, "extended_response", none, none, none,
        [⟨"M1", 2, some ["alpha"]⟩, ⟨"M2", 2, some ["beta"]⟩], false, false⟩
      "alpha beta" ⟨[], ⟨"moderate"⟩⟩).maxMarks := by
  constructor
  · have hm : (([⟨"M1", 2, some ["alpha"]⟩, ⟨"M2", 2, some ["beta"]⟩] :
        List MarkingPoint).foldl (MarkingEngine.extendedResponseStep "alpha beta")
        (MarkingEngine.blankPoints ⟨"04.1", 5, "extended_response", none, none, none,
          [⟨"M1", 2, some ["alpha"]⟩, ⟨"M2", 2, some ["beta"]⟩], false, false⟩, 0)).2 = 4 := by
      decide
    simp only [MarkingEngine.markQuestion, MarkingEngine.markExtendedResponse]
    norm_num [hm]
    decide
  · decide

/-- C3 (amended): for every question marked by the deterministic engine
(`maxMarks ≥ 1`, as the structuring service guarantees), `isCorrect` is
`marksAwarded = maxMarks` for every question type except
extended_response, where it is `marksAwarded ≥ 0.8 × maxMarks`. -/
theorem markMultipleChoice_correctness (q : Question) (ca : String) (h : 1 ≤ q.maxMarks) :
    (MarkingEngine.markMultipleChoice q ca).isCorrect = true ↔
      (MarkingEngine.markMultipleChoice q ca).marksAwarded =
        (MarkingEngine.markMultipleChoice q ca).maxMarks := by
  simp only [MarkingEngine.markMultipleChoice]
  rcases q.correctAnswer with - | c
  · simp
    omega
  · by_cases hb : List.map Char.toUpper c.data = trimChars (List.map Char.toUpper ca.data)
    · simp [hb]
    · simp [hb]
      omega

theorem markCalculation_correctness (q : Question) (ca : String) (ms : MarkschemeContent) :
    (MarkingEngine.markCalculation q ca ms).isCorrect = true ↔
      (MarkingEngine.markCalculation q ca ms).marksAwarded =
        (MarkingEngine.markCalculation q ca ms).maxMarks := by
  simp [MarkingEngine.markCalculation]

theorem markChemicalEquation_correctness (q : Question) (ca : String) (ms : MarkschemeContent)
    (h : 1 ≤ q.maxMarks) :
    (MarkingEngine.markChemicalEquation q ca ms).isCorrect = true ↔
      (MarkingEngine.markChemicalEquation q ca ms).marksAwarded =
        (MarkingEngine.markChemicalEquation q ca ms).maxMarks := by
  simp only [MarkingEngine.markChemicalEquation]
  split
  · simp
  · split
    · simp
    · simp

theorem markShortAnswer_correctness (q : Question) (ca : String) (ms : MarkschemeContent) :
    (MarkingEngine.markShortAnswer q ca ms).isCorrect = true ↔
      (MarkingEngine.markShortAnswer q ca ms).marksAwarded =
        (MarkingEngine.markShortAnswer q ca ms).maxMarks := by
  simp [MarkingEngine.markShortAnswer]

theorem markExtendedResponse_isCorrect (q : Question) (ca : String) (ms : MarkschemeContent) :
    (MarkingEngine.markExtendedResponse q ca ms).isCorrect = true ↔
      (q.maxMarks : ℚ) * (4/5) ≤
        ((MarkingEngine.markExtendedResponse q ca ms).marksAwarded : ℚ) := by
  simp [MarkingEngine.markExtendedResponse]

/-- C3 (amended): for every question marked by the deterministic engine
(`maxMarks ≥ 1`, as the structuring service guarantees), `isCorrect` is
`marksAwarded = maxMarks` for every question type except
extended_response, where it is `marksAwarded ≥ 0.8 × maxMarks`. -/
theorem c3_amended_isCorrect_characterization
    (oracle : Question → String → MarkschemeContent → MarkingResultData)
    (q : Question) (a : String) (ms : MarkschemeContent) (hmax : 1 ≤ q.maxMarks) :
    (q.type = "extended_response" ∧ trimChars a.toList ≠ [] →
      ((MarkingEngine.markQuestion false oracle q a ms).isCorrect = true ↔
        (q.maxMarks : ℚ) * (4/5) ≤
          ((MarkingEngine.markQuestion false oracle q a ms).marksAwarded : ℚ))) ∧
    (q.type ≠ "extended_response" ∨ trimChars a.toList = [] →
      ((MarkingEngine.markQuestion false oracle q a ms).isCorrect = true ↔
        (MarkingEngine.markQuestion false oracle q a ms).marksAwarded =
          (MarkingEngine.markQuestion false oracle q a ms).maxMarks)) := by
  by_cases hempty : trimChars a.data = []
  · refine ⟨fun h => absurd hempty h.2, fun _ => ?_⟩
    simp [MarkingEngine.markQuestion, MarkingEngine.noAnswerResult, hempty]
    omega
  · constructor
    · rintro ⟨ht, -⟩
      have hred : MarkingEngine.markQuestion false oracle q a ms =
          MarkingEngine.markExtendedResponse q (String.mk (trimChars a.data)) ms := by
        simp [MarkingEngine.markQuestion, hempty, ht]
      rw [hred]
      exact markExtendedResponse_isCorrect q _ ms
    · rintro (ht | hcontra)
      · by_cases t1 : q.type = "multiple_choice"
        · have hred : MarkingEngine.markQuestion false oracle q a ms =
              MarkingEngine.markMultipleChoice q (String.mk (trimChars a.data)) := by
            simp [MarkingEngine.markQuestion, hempty, t1]
          rw [hred]
          exact markMultipleChoice_correctness q _ hmax
        · by_cases t2 : q.type = "calculation"
          · have hred : MarkingEngine.markQuestion false oracle q a ms =
                MarkingEngine.markCalculation q (String.mk (trimChars a.data)) ms := by
              simp [MarkingEngine.markQuestion, hempty, t1, t2]
            rw [hred]
            exact markCalculation_correctness q _ ms
          · by_cases t3 : q.type = "chemical_equation"
            · have hred : MarkingEngine.markQuestion false oracle q a ms =
                  MarkingEngine.markChemicalEquation q (String.mk (trimChars a.data)) ms := by
                simp [MarkingEngine.markQuestion, hempty, t1, t2, t3]
              rw [hred]
              exact markChemicalEquation_correctness q _ ms hmax
            · by_cases t4 : q.type = "short_answer"
              · have hred : MarkingEngine.markQuestion false oracle q a ms =
                    MarkingEngine.markShortAnswer q (String.mk (trimChars a.data)) ms := by
                  simp [MarkingEngine.markQuestion, hempty, t1, t2, t3, t4]
                rw [hred]
                exact markShortAnswer_correctness q _ ms
              · have hred : MarkingEngine.markQuestion false oracle q a ms =
                    MarkingEngine.markGeneric q (String.mk (trimChars a.data)) := by
                  simp [MarkingEngine.markQuestion, hempty, t1, t2, t3, t4, ht]
                rw [hred]
                simp [MarkingEngine.markGeneric]
                omega
      · exact absurd hcontra hempty

theorem c3_amended_witness :
    1 ≤ (2 : Nat) ∧
    ((MarkingEngine.markQuestion false dummyOracle
      ⟨"05.1", 2, "short_answer", none, none, none, [⟨"M1", 2, some ["acid"]⟩], false, false⟩
      "a base" ⟨[], ⟨"moderate"⟩⟩).isCorrect = true ↔
      (MarkingEngine.markQuestion false dummyOracle
        ⟨"05.1", 2, "short_answer", none, none, none, [⟨"M1", 2, some ["acid"]⟩], false, false⟩
        "a base" ⟨[], ⟨"moderate"⟩⟩).marksAwarded =
      (MarkingEngine.markQuestion false dummyOracle
        ⟨"05.1", 2, "short_answer", none, none, none, [⟨"M1", 2, some ["acid"]⟩], false, false⟩
        "a base" ⟨[], ⟨"moderate"⟩⟩).maxMarks) := by
  refine ⟨by decide, (c3_amended_isCorrect_characterization dummyOracle _ "a base" _
    (by decide)).2 (Or.inl (by decide))⟩

/-- The canonicalization the spec prescribes for formula equality:
standardize then lowercase (`compareFormulas` compares exactly these). -/
def canonicalCompound (c : List Char) : String :=
  String.mk (ChemistryUtils.toLowerList (ChemistryUtils.standardizeFormula c))

/-- Equation equality as C7 words it: both sides parse, and the sorted
reactant and product lists match after canonicalization of each compound. -/
def specCanonicalEquationEq (eq1 eq2 : List Char) : Bool :=
  match ChemistryUtils.parseEquation eq1, ChemistryUtils.parseEquation eq2 with
  | some p1, some p2 =>
    ChemistryUtils.sortStrings (p1.reactants.map canonicalCompound) =
      ChemistryUtils.sortStrings (p2.reactants.map canonicalCompound) &&
    ChemistryUtils.sortStrings (p1.products.map canonicalCompound) =
      ChemistryUtils.sortStrings (p2.products.map canonicalCompound)
  | _, _ => false

theorem sortStrings_eq_iff_perm (l1 l2 : List String) :
    ChemistryUtils.sortStrings l1 = ChemistryUtils.sortStrings l2 ↔ l1.Perm l2 := by
  constructor
  · intro h
    have h2 : List.insertionSort (fun a b : String => a ≤ b) l1 =
        List.insertionSort (fun a b : String => a ≤ b) l2 := h
    exact (h2 ▸ (List.perm_insertionSort (fun a b : String => a ≤ b) l1).symm).trans
      (List.perm_insertionSort _ l2)
  · intro hp
    exact List.eq_of_perm_of_sorted
      ((List.perm_insertionSort _ l1).trans (hp.trans (List.perm_insertionSort _ l2).symm))
      (List.sorted_insertionSort _ l1) (List.sorted_insertionSort _ l2)

/-- C7 (counterexample): `compareEquations` does not canonicalize the
compounds before comparing.  The same equation written in lowercase is a
case variant, so the claim says the equations are equal; the code compares
the raw compound strings and reports them different. -/
theorem c7_case_variants_not_equal :
    ChemistryUtils.compareEquations "H2O = H2O".toList "h2o = h2o".toList = false ∧
    specCanonicalEquationEq "H2O = H2O".toList "h2o = h2o".toList = true := by
  constructor <;> decide

/-- C7 (amended): `compareEquations` returns true iff both equations parse
and the reactant lists and the product lists, as raw (trimmed,
coefficient-stripped) compound strings, are permutations of each other —
so compound order and leading coefficients are irrelevant, but case,
subscript and internal-whitespace variants distinguish compounds. -/
theorem c7_amended_compareEquations_iff_perm (eq1 eq2 : List Char) :
    ChemistryUtils.compareEquations eq1 eq2 = true ↔
      (∃ p1 p2, ChemistryUtils.parseEquation eq1 = some p1 ∧
        ChemistryUtils.parseEquation eq2 = some p2 ∧
        (p1.reactants.map String.mk).Perm (p2.reactants.map String.mk) ∧
        (p1.products.map String.mk).Perm (p2.products.map String.mk)) := by
  unfold ChemistryUtils.compareEquations
  rcases h1 : ChemistryUtils.parseEquation eq1 with - | p1 <;>
    rcases h2 : ChemistryUtils.parseEquation eq2 with - | p2 <;> simp
  exact ⟨fun ⟨a, b⟩ => ⟨(sortStrings_eq_iff_perm _ _).mp a, (sortStrings_eq_iff_perm _ _).mp b⟩,
    fun ⟨a, b⟩ => ⟨(sortStrings_eq_iff_perm _ _).mpr a, (sortStrings_eq_iff_perm _ _).mpr b⟩⟩

/-! ### C8: the dynamic program of `levenshteinDistance` computes the
Levenshtein edit distance.

`levSpec` is the textbook recurrence (defined on final characters, matching
the orientation of the table the source builds): the distance between two
texts is the minimum of deletion, insertion and substitution costs. -/

def levSpec (a b : List Char) : Nat :=
  if ha : a.isEmpty then b.length
  else if hb : b.isEmpty then a.length
  else
    min (levSpec a.dropLast b + 1)
      (min (levSpec a b.dropLast + 1)
        (levSpec a.dropLast b.dropLast +
          ChemistryUtils.levInd (a.getLastD ' ') (b.getLastD ' ')))
termination_by a.length + b.length
decreasing_by
  all_goals
    have ha2 : a ≠ [] := by simpa using ha
    have hb2 : b ≠ [] := by simpa using hb
    have hal : 0 < a.length := List.length_pos.mpr ha2
    have hbl : 0 < b.length := List.length_pos.mpr hb2
    simp [List.length_dropLast]
    omega

theorem levSpec_nil_left (b : List Char) : levSpec [] b = b.length := by
  rw [levSpec]
  simp

theorem levSpec_nil_right (a : List Char) : levSpec a [] = a.length := by
  rw [levSpec]
  split_ifs with h1 h2
  · simp_all [List.isEmpty_iff]
  · rfl
  · simp at h2

theorem levSpec_snoc (xs ys : List Char) (x y : Char) :
    levSpec (xs ++ [x]) (ys ++ [y]) =
      min (levSpec xs (ys ++ [y]) + 1)
        (min (levSpec (xs ++ [x]) ys + 1)
          (levSpec xs ys + ChemistryUtils.levInd x y)) := by
  rw [levSpec]
  simp [List.dropLast_concat, List.getLastD_concat]

/-- The row of the matrix for processed text `t`: distances from every
prefix `pre ++ (first i of rest)` of the first text to `t`. -/
def rowOf : List Char → List Char → List Char → List Nat
  | pre, [], t => [levSpec pre t]
  | pre, a :: as, t => levSpec pre t :: rowOf (pre ++ [a]) as t

theorem rowOf_head_tail (x : List Char) (r : List Char) (t : List Char) :
    rowOf x r t = levSpec x t :: (rowOf x r t).tail := by
  cases r <;> rfl

theorem rowOf_nil_t (rest : List Char) : ∀ pre : List Char,
    rowOf pre rest [] = (List.range (rest.length + 1)).map (fun i => pre.length + i) := by
  induction rest with
  | nil =>
    intro pre
    simp only [rowOf, levSpec_nil_right, List.length_nil]
    rw [show List.range (0 + 1) = [0] from rfl]
    simp
  | cons a as ih =>
    intro pre
    rw [show (a :: as).length + 1 = (as.length + 1) + 1 from rfl, List.range_succ_eq_map]
    simp only [rowOf, ih, List.map_cons, List.map_map]
    congr 1
    · rw [levSpec_nil_right]
      simp
    · apply List.map_congr_left
      intro i _
      simp
      omega

theorem levRowNext_cons (c a : Char) (as : List Char) (diag up : Nat) (R : List Nat)
    (left : Nat) :
    ChemistryUtils.levRowNext c (a :: as) (diag :: up :: R) left =
      min (left + 1) (min (up + 1) (diag + ChemistryUtils.levInd a c)) ::
        ChemistryUtils.levRowNext c as (up :: R)
          (min (left + 1) (min (up + 1) (diag + ChemistryUtils.levInd a c))) := rfl

theorem levRowNext_rowOf (c : Char) (rest : List Char) : ∀ pre t : List Char,
    levSpec pre (t ++ [c]) ::
      ChemistryUtils.levRowNext c rest (rowOf pre rest t) (levSpec pre (t ++ [c])) =
      rowOf pre rest (t ++ [c]) := by
  induction rest with
  | nil => intro pre t; simp [ChemistryUtils.levRowNext, rowOf]
  | cons a as ih =>
    intro pre t
    have hexp : rowOf (pre ++ [a]) as t =
        levSpec (pre ++ [a]) t :: (rowOf (pre ++ [a]) as t).tail :=
      rowOf_head_tail _ _ _
    rw [show rowOf pre (a :: as) t = levSpec pre t :: rowOf (pre ++ [a]) as t from rfl]
    conv_lhs => rw [hexp]
    rw [levRowNext_cons]
    rw [show min (levSpec pre (t ++ [c]) + 1)
        (min (levSpec (pre ++ [a]) t + 1)
          (levSpec pre t + ChemistryUtils.levInd a c)) =
        levSpec (pre ++ [a]) (t ++ [c]) from (levSpec_snoc pre t a c).symm]
    rw [← hexp]
    rw [ih (pre ++ [a]) t]
    rfl

theorem levRowsAux_rowOf (s1 : List Char) (cs : List Char) : ∀ t : List Char,
    ChemistryUtils.levRowsAux s1 cs (rowOf [] s1 t) t.length = rowOf [] s1 (t ++ cs) := by
  induction cs with
  | nil => intro t; simp [ChemistryUtils.levRowsAux]
  | cons c cs ih =>
    intro t
    rw [ChemistryUtils.levRowsAux, ChemistryUtils.levRow]
    have hlen : t.length + 1 = levSpec [] (t ++ [c]) := by
      rw [levSpec_nil_left]
      simp
    rw [hlen, levRowNext_rowOf c s1 [] t]
    have h2 := ih (t ++ [c])
    rw [show (t ++ [c]).length = t.length + 1 from by simp, hlen] at h2
    rw [h2]
    simp

theorem rowOf_getD (rest : List Char) : ∀ pre t : List Char,
    (rowOf pre rest t).getD rest.length 0 = levSpec (pre ++ rest) t := by
  induction rest with
  | nil => intro pre t; simp [rowOf]
  | cons a as ih =>
    intro pre t
    rw [rowOf]
    show (rowOf (pre ++ [a]) as t).getD as.length 0 = _
    rw [ih (pre ++ [a]) t]
    simp

/-- The dynamic program of the source computes the Levenshtein distance. -/
theorem levenshteinDistance_eq_levSpec (s1 s2 : List Char) :
    ChemistryUtils.levenshteinDistance s1 s2 = levSpec s1 s2 := by
  unfold ChemistryUtils.levenshteinDistance
  have hinit : List.range (s1.length + 1) = rowOf [] s1 [] := by
    rw [rowOf_nil_t s1 []]
    simp
  have h2 := levRowsAux_rowOf s1 s2 []
  simp only [List.length_nil, List.nil_append] at h2
  have h3 := rowOf_getD s1 [] s2
  simp only [List.nil_append] at h3
  rw [hinit, h2, h3]

/-- The similarity ratio exactly as C8 words it, with the mathematical
Levenshtein distance `levSpec` in place of the dynamic program. -/
def specSimilarity (s1 s2 : List Char) : ℚ :=
  let longer := if s1.length > s2.length then s1 else s2
  let shorter := if s1.length > s2.length then s2 else s1
  if longer.length = 0 then 1
  else ((longer.length : ℚ) - (levSpec longer shorter : ℚ)) / (longer.length : ℚ)

theorem specSimilarity_eq (s1 s2 : List Char) :
    specSimilarity s1 s2 =
      if s1.length > s2.length then
        (if s1.length = 0 then 1
          else ((s1.length : ℚ) - (levSpec s1 s2 : ℚ)) / (s1.length : ℚ))
      else
        (if s2.length = 0 then 1
          else ((s2.length : ℚ) - (levSpec s2 s1 : ℚ)) / (s2.length : ℚ)) := by
  unfold specSimilarity
  by_cases h : s1.length > s2.length <;> simp [h]

theorem calculateSimilarity_eq_spec (s1 s2 : List Char) :
    ChemistryUtils.calculateSimilarity s1 s2 = specSimilarity s1 s2 := by
  rw [calculateSimilarity_eq, specSimilarity_eq]
  by_cases h : s1.length > s2.length <;>
    simp [h, levenshteinDistance_eq_levSpec]

/-- C8: fuzzy comparison normalizes both texts to lowercase
alphanumeric-only, accepts immediately on equal normal forms, and
otherwise accepts iff `(longer_length − levenshtein_distance) /
longer_length ≥ tolerance`; in particular
`fuzzyCompare("sodium chlroide", "sodium chloride", 0.8)` holds and
`fuzzyCompare("potassium", "sodium", 0.8)` does not. -/
theorem c8_fuzzy_compare_characterization :
    (∀ (t1 t2 : List Char) (tol : ℚ),
      ChemistryUtils.fuzzyCompareText t1 t2 tol = true ↔
        (ChemistryUtils.normalizeFuzzy t1 = ChemistryUtils.normalizeFuzzy t2 ∨
          specSimilarity (ChemistryUtils.normalizeFuzzy t1)
            (ChemistryUtils.normalizeFuzzy t2) ≥ tol)) ∧
    ChemistryUtils.fuzzyCompareText "sodium chlroide".toList "sodium chloride".toList
      (4/5 : ℚ) = true ∧
    ChemistryUtils.fuzzyCompareText "potassium".toList "sodium".toList (4/5 : ℚ) = false := by
  have hmain : ∀ (t1 t2 : List Char) (tol : ℚ),
      ChemistryUtils.fuzzyCompareText t1 t2 tol = true ↔
        (ChemistryUtils.normalizeFuzzy t1 = ChemistryUtils.normalizeFuzzy t2 ∨
          specSimilarity (ChemistryUtils.normalizeFuzzy t1)
            (ChemistryUtils.normalizeFuzzy t2) ≥ tol) := by
    intro t1 t2 tol
    rw [fuzzyCompareText_eq, calculateSimilarity_eq_spec]
    by_cases h : ChemistryUtils.normalizeFuzzy t1 = ChemistryUtils.normalizeFuzzy t2 <;>
      simp [h]
  refine ⟨hmain, ?_, ?_⟩
  · rw [hmain]
    right
    rw [specSimilarity_eq]
    rw [show (ChemistryUtils.normalizeFuzzy "sodium chlroide".toList).length = 14 from
      by decide]
    rw [show (ChemistryUtils.normalizeFuzzy "sodium chloride".toList).length = 14 from
      by decide]
    rw [← levenshteinDistance_eq_levSpec, ← levenshteinDistance_eq_levSpec]
    rw [show ChemistryUtils.levenshteinDistance
      (ChemistryUtils.normalizeFuzzy "sodium chloride".toList)
      (ChemistryUtils.normalizeFuzzy "sodium chlroide".toList) = 2 from by decide]
    norm_num
  · rw [Bool.eq_false_iff]
    intro hcontra
    rw [hmain] at hcontra
    rcases hcontra with h | h
    · exact absurd h (by decide)
    · rw [specSimilarity_eq] at h
      rw [show (ChemistryUtils.normalizeFuzzy "potassium".toList).length = 9 from by decide,
        show (ChemistryUtils.normalizeFuzzy "sodium".toList).length = 6 from by decide] at h
      rw [← levenshteinDistance_eq_levSpec, ← levenshteinDistance_eq_levSpec] at h
      rw [show ChemistryUtils.levenshteinDistance
        (ChemistryUtils.normalizeFuzzy "potassium".toList)
        (ChemistryUtils.normalizeFuzzy "sodium".toList) = 5 from by decide] at h
      norm_num at h

/-- C6 (counterexample): the claimed iff fails on a parseable equation with
a bare-number term.  In `2 + H2 = H2` the reactant compounds are just
`H2` (the `2` term carries no compound), so every element balances under
the per-compound-coefficient reading the claim states; but the code pairs
the compound list positionally against the segment coefficients
`[2, 1, 1]`, multiplies the reactant `H2` by 2, and reports unbalanced. -/
theorem c6_positional_coefficients_misalign :
    (ChemistryUtils.parseEquation "2 + H2 = H2".toList).map (·.isBalanced) = some false ∧
    (∀ e : String, EquationSpec.specReactantTotal "2 + H2 = H2".toList e =
      EquationSpec.specProductTotal "2 + H2 = H2".toList e) := by
  constructor
  · decide
  · intro e
    unfold EquationSpec.specReactantTotal EquationSpec.specProductTotal
    rw [show ChemistryUtils.regexEqMatch
      (ChemistryUtils.normalizeEquation "2 + H2 = H2".toList) =
      some ("2 + H2".toList, "H2".toList) from by decide]
    show EquationSpec.sideTotal (EquationSpec.specSideTerms "2 + H2".toList) e =
      EquationSpec.sideTotal (EquationSpec.specSideTerms "H2".toList) e
    rw [show EquationSpec.specSideTerms "2 + H2".toList = [" H2".toList] from by decide]
    rw [show EquationSpec.specSideTerms "H2".toList = ["H2".toList] from by decide]
    unfold EquationSpec.sideTotal
    simp only [List.map_cons, List.map_nil, List.sum_cons, List.sum_nil]
    rw [show EquationSpec.specTermCoeff " H2".toList = 1 from by decide,
      show EquationSpec.specTermCompound " H2".toList = "H2".toList from by decide,
      show EquationSpec.specTermCoeff "H2".toList = 1 from by decide,
      show EquationSpec.specTermCompound "H2".toList = "H2".toList from by decide]

/-- C6 (amended): for every parseable equation whose normalized form has
exactly one reactants/products separator and in which every plus-separated
segment still carries a compound after stripping its leading coefficient
(so compounds and extracted coefficients stay aligned), the parser
declares the equation balanced iff for every element the reactant-side
total of coefficient × element count equals the product-side total, with
absent or zero coefficients defaulting to 1. -/
theorem c6_amended_balance_characterization (s : List Char)
    (hW : EquationSpec.wellFormedEquation s = true)
    (hP : (ChemistryUtils.parseEquation s).isSome = true) :
    ((ChemistryUtils.parseEquation s).map (·.isBalanced) = some true) ↔
      ∀ e : String,
        EquationSpec.specReactantTotal s e = EquationSpec.specProductTotal s e := by
  classical
  unfold EquationSpec.wellFormedEquation at hW
  simp only [Bool.and_eq_true, decide_eq_true_eq, List.all_eq_true] at hW
  obtain ⟨hcount, hall⟩ := hW
  -- destructure the regex match
  rcases hre : ChemistryUtils.regexEqMatch (ChemistryUtils.normalizeEquation s)
    with - | ⟨rStr, pStr⟩
  · simp only [ChemistryUtils.parseEquation] at hP
    rw [hre] at hP
    simp at hP
  -- the separator position and the two raw halves
  have hre2 := hre
  unfold ChemistryUtils.regexEqMatch at hre2
  rcases hfs : ChemistryUtils.findSepIdx (ChemistryUtils.normalizeEquation s) with - | k
  · rw [hfs] at hre2
    simp at hre2
  rw [hfs] at hre2
  simp only [Option.some.injEq, Prod.mk.injEq] at hre2
  obtain ⟨hrStr, hpStr⟩ := hre2
  unfold ChemistryUtils.findSepIdx at hfs
  obtain ⟨rp, pp, hnrp, hlen, hk1, hk2⟩ :=
    findSepIdxAux_some (ChemistryUtils.normalizeEquation s).length
      (ChemistryUtils.normalizeEquation s) 0 k hfs
  rw [Nat.zero_add] at hlen
  -- the unique separator forces both halves to be separator-free
  have hsepfree : (∀ c ∈ rp, ¬c = '=') ∧ ∀ c ∈ pp, ¬c = '=' := by
    rw [hnrp] at hcount
    simp [List.filter_append, List.filter_cons] at hcount
    have hr0 : (rp.filter (fun c => decide (c = '='))).length = 0 := by omega
    have hp0 : (pp.filter (fun c => decide (c = '='))).length = 0 := by omega
    rw [List.length_eq_zero, List.filter_eq_nil_iff] at hr0 hp0
    constructor <;> intro c hc
    · simpa using hr0 c hc
    · simpa using hp0 c hc
  -- the whole-equation segments are the two halves' segments
  have hsplit2 : splitOnP (fun c => c = '+' || c = '=')
      (ChemistryUtils.normalizeEquation s) =
      splitOnP (fun c => c = '+') rp ++ splitOnP (fun c => c = '+') pp := by
    rw [hnrp, splitOnP_append_sep _ '=' (by simp)]
    rw [splitOnP_congr _ (fun c => c = '+') rp
      (fun c hc => by simp [hsepfree.1 c hc]),
      splitOnP_congr _ (fun c => c = '+') pp
      (fun c hc => by simp [hsepfree.2 c hc])]
  -- goodness of each half's segments
  have hgood_r : ∀ t ∈ splitOnP (fun c => c = '+') rp, EquationSpec.goodTerm t = true :=
    fun t ht => hall t (by rw [hsplit2]; exact List.mem_append_left _ ht)
  have hgood_p : ∀ t ∈ splitOnP (fun c => c = '+') pp, EquationSpec.goodTerm t = true :=
    fun t ht => hall t (by rw [hsplit2]; exact List.mem_append_right _ ht)
  -- neither half is all spaces
  have hnotall_r : ¬∀ c ∈ rp, isSpaceChar c = true := by
    intro hallsp
    have hone : splitOnP (fun c => c = '+') rp = [rp] :=
      splitOnP_no_sep _ rp (fun c hc => by
        simp [isSpaceChar_ne_plus (hallsp c hc)])
    have hg := goodTerm_parts (hgood_r rp (by rw [hone]; simp))
    rw [trimChars_all_spaces hallsp] at hg
    simp at hg
  have hnotall_p : ¬∀ c ∈ pp, isSpaceChar c = true := by
    intro hallsp
    have hone : splitOnP (fun c => c = '+') pp = [pp] :=
      splitOnP_no_sep _ pp (fun c hc => by
        simp [isSpaceChar_ne_plus (hallsp c hc)])
    have hg := goodTerm_parts (hgood_p pp (by rw [hone]; simp))
    rw [trimChars_all_spaces hallsp] at hg
    simp at hg
  -- the matched halves are the trimmed halves
  have htake : (ChemistryUtils.normalizeEquation s).take k = rp := by
    rw [hnrp, ← hlen, List.take_left]
  have hdrop : (ChemistryUtils.normalizeEquation s).drop (k + 1) = pp := by
    rw [hnrp, ← hlen, show rp.length + 1 = (rp ++ ['=']).length from by simp,
      show rp ++ '=' :: pp = (rp ++ ['=']) ++ pp from by simp, List.drop_left]
  rw [htake] at hrStr
  rw [hdrop] at hpStr
  have hTr := dropTrailKeepOne_spec hnotall_r
  have hr_eq := hTr.1
  obtain ⟨spr, hspr, hr_dec⟩ := hTr.2
  have hTp := dropLeadKeepOne_spec hnotall_p
  have hp_eq := hTp.1
  obtain ⟨spp, hspp, hp_dec⟩ := hTp.2
  -- rStr is right-trimmed rp, pStr is left-trimmed pp
  rw [hr_eq] at hrStr
  rw [hp_eq] at hpStr
  -- the segment trims agree between halves and trimmed halves
  have htrim_r : (splitOnP (fun c => c = '+') rStr).map trimChars =
      (splitOnP (fun c => c = '+') rp).map trimChars := by
    conv_rhs => rw [show rp = (rp.reverse.dropWhile isSpaceChar).reverse ++ spr from hr_dec]
    rw [map_trim_split_append_spaces hspr, ← hrStr]
  have htrim_p : (splitOnP (fun c => c = '+') pStr).map trimChars =
      (splitOnP (fun c => c = '+') pp).map trimChars := by
    conv_rhs => rw [show pp = spp ++ pp.dropWhile isSpaceChar from hp_dec]
    rw [map_trim_split_spaces_append hspp, ← hpStr]
  -- goodness transfers to the trimmed halves
  have hgood_rStr : ∀ t ∈ splitOnP (fun c => c = '+') rStr,
      EquationSpec.goodTerm t = true := by
    intro t ht
    have hmapped := map_congr_of_trim_eq EquationSpec.goodTerm
      (fun t1 t2 h => goodTerm_congr h) _ _ htrim_r
    have hmem : EquationSpec.goodTerm t ∈
        (splitOnP (fun c => c = '+') rp).map EquationSpec.goodTerm := by
      rw [← hmapped]
      exact List.mem_map_of_mem _ ht
    obtain ⟨u, hu, huv⟩ := List.mem_map.mp hmem
    rw [← huv]
    exact hgood_r u hu
  have hgood_pStr : ∀ t ∈ splitOnP (fun c => c = '+') pStr,
      EquationSpec.goodTerm t = true := by
    intro t ht
    have hmapped := map_congr_of_trim_eq EquationSpec.goodTerm
      (fun t1 t2 h => goodTerm_congr h) _ _ htrim_p
    have hmem : EquationSpec.goodTerm t ∈
        (splitOnP (fun c => c = '+') pp).map EquationSpec.goodTerm := by
      rw [← hmapped]
      exact List.mem_map_of_mem _ ht
    obtain ⟨u, hu, huv⟩ := List.mem_map.mp hmem
    rw [← huv]
    exact hgood_p u hu
  -- compounds of both sides
  have hR : ChemistryUtils.parseCompounds rStr =
      (splitOnP (fun c => c = '+') rStr).map
        (fun t => ChemistryUtils.stripLeadingNum (trimChars t)) :=
    parseCompounds_of_good rStr hgood_rStr
  have hPc : ChemistryUtils.parseCompounds pStr =
      (splitOnP (fun c => c = '+') pStr).map
        (fun t => ChemistryUtils.stripLeadingNum (trimChars t)) :=
    parseCompounds_of_good pStr hgood_pStr
  -- the coefficient list decomposes along the two sides
  have hK : ChemistryUtils.extractCoefficients (ChemistryUtils.normalizeEquation s) =
      (splitOnP (fun c => c = '+') rStr).map ChemistryUtils.coeffOfTerm ++
      (splitOnP (fun c => c = '+') pStr).map ChemistryUtils.coeffOfTerm := by
    unfold ChemistryUtils.extractCoefficients
    rw [splitOnP_congr _ (fun c => c = '+' || c = '=')
      (ChemistryUtils.normalizeEquation s)
      (fun c hc => by
        have h := normalizeEquation_no_arrows s c hc
        simp [h.1, h.2])]
    rw [hsplit2, List.map_append]
    rw [map_congr_of_trim_eq ChemistryUtils.coeffOfTerm
      (fun t1 t2 h => coeffOfTerm_congr h) _ _ htrim_r,
      map_congr_of_trim_eq ChemistryUtils.coeffOfTerm
      (fun t1 t2 h => coeffOfTerm_congr h) _ _ htrim_p]
  -- both compound lists are nonempty (every segment is a good term)
  have hRne : (ChemistryUtils.parseCompounds rStr).isEmpty = false := by
    rw [hR]
    rcases hsp : splitOnP (fun c => c = '+') rStr with - | ⟨a, t⟩
    · exact absurd hsp (splitOnP_ne_nil _ _)
    · simp
  have hPne : (ChemistryUtils.parseCompounds pStr).isEmpty = false := by
    rw [hPc]
    rcases hsp : splitOnP (fun c => c = '+') pStr with - | ⟨a, t⟩
    · exact absurd hsp (splitOnP_ne_nil _ _)
    · simp
  simp only [ChemistryUtils.parseEquation, hre, hRne, hPne, Bool.or_false,
    Bool.false_eq_true, if_false, Option.map_some, Option.some.injEq]
  rw [Option.map_some']
  simp only [Option.some.injEq]
  show ChemistryUtils.checkBalance (ChemistryUtils.parseCompounds rStr)
      (ChemistryUtils.parseCompounds pStr)
      (ChemistryUtils.extractCoefficients (ChemistryUtils.normalizeEquation s)) = true ↔ _
  -- the balance verdict against the per-element characterization
  rw [checkBalance_iff]
  have hlenR : (ChemistryUtils.parseCompounds rStr).length =
      ((splitOnP (fun c => c = '+') rStr).map ChemistryUtils.coeffOfTerm).length := by
    rw [hR]
    simp
  have htakeK : (ChemistryUtils.extractCoefficients
      (ChemistryUtils.normalizeEquation s)).take
        (ChemistryUtils.parseCompounds rStr).length =
      (splitOnP (fun c => c = '+') rStr).map ChemistryUtils.coeffOfTerm := by
    rw [hK, hlenR, List.take_left]
  have hdropK : (ChemistryUtils.extractCoefficients
      (ChemistryUtils.normalizeEquation s)).drop
        (ChemistryUtils.parseCompounds rStr).length =
      (splitOnP (fun c => c = '+') pStr).map ChemistryUtils.coeffOfTerm := by
    rw [hK, hlenR, List.drop_left]
  constructor
  · intro h e
    have h2 := h e
    rw [htakeK, hdropK, hR, hPc, pairedCount_maps, pairedCount_maps] at h2
    unfold EquationSpec.specReactantTotal EquationSpec.specProductTotal
    rw [hre]
    show EquationSpec.sideTotal (EquationSpec.specSideTerms rStr) e =
      EquationSpec.sideTotal (EquationSpec.specSideTerms pStr) e
    rw [specSideTerms_of_good rStr hgood_rStr, specSideTerms_of_good pStr hgood_pStr]
    exact h2
  · intro h e
    have h2 := h e
    simp only [EquationSpec.specReactantTotal, EquationSpec.specProductTotal, hre] at h2
    rw [htakeK, hdropK, hR, hPc, pairedCount_maps, pairedCount_maps]
    rw [specSideTerms_of_good rStr hgood_rStr, specSideTerms_of_good pStr hgood_pStr] at h2
    exact h2

theorem c6_amended_witness :
    EquationSpec.wellFormedEquation "2H2 + O2 = 2H2O".toList = true ∧
    (ChemistryUtils.parseEquation "2H2 + O2 = 2H2O".toList).map (·.isBalanced) = some true ∧
    (ChemistryUtils.parseEquation "H2 + O2 = H2O".toList).map (·.isBalanced) = some false := by
  refine ⟨by decide, ?_, by decide⟩
  refine (c6_amended_balance_characterization _ (by decide) (by decide)).mpr ?_
  intro e
  unfold EquationSpec.specReactantTotal EquationSpec.specProductTotal
  rw [show ChemistryUtils.regexEqMatch
    (ChemistryUtils.normalizeEquation "2H2 + O2 = 2H2O".toList) =
    some ("2H2 + O2".toList, "2H2O".toList) from by decide]
  show EquationSpec.sideTotal (EquationSpec.specSideTerms "2H2 + O2".toList) e =
    EquationSpec.sideTotal (EquationSpec.specSideTerms "2H2O".toList) e
  rw [show EquationSpec.specSideTerms "2H2 + O2".toList = ["2H2 ".toList, " O2".toList]
    from by decide]
  rw [show EquationSpec.specSideTerms "2H2O".toList = ["2H2O".toList] from by decide]
  unfold EquationSpec.sideTotal
  simp only [List.map_cons, List.map_nil, List.sum_cons, List.sum_nil]
  rw [show EquationSpec.specTermCoeff "2H2 ".toList = 2 from by decide,
    show EquationSpec.specTermCompound "2H2 ".toList = "H2".toList from by decide,
    show EquationSpec.specTermCoeff " O2".toList = 1 from by decide,
    show EquationSpec.specTermCompound " O2".toList = "O2".toList from by decide,
    show EquationSpec.specTermCoeff "2H2O".toList = 2 from by decide,
    show EquationSpec.specTermCompound "2H2O".toList = "H2O".toList from by decide]
  unfold EquationSpec.elemCountIn
  rw [show ChemistryUtils.scanElements "H2".toList = [("H", 2)] from by decide,
    show ChemistryUtils.scanElements "O2".toList = [("O", 2)] from by decide,
    show ChemistryUtils.scanElements "H2O".toList = [("H", 2), ("O", 1)] from by decide]
  simp only [List.map_cons, List.map_nil, List.sum_cons, List.sum_nil]
  by_cases h1 : ("H" : String) = e
  · by_cases h2 : ("O" : String) = e
    · exact absurd (h1.trans h2.symm) (by decide)
    · simp [h1, h2]
  · by_cases h2 : ("O" : String) = e <;> simp [h1, h2]

/-- Folded sums equal mapped sums (aggregation helper). -/
theorem foldl_add_eq_sum {α : Type} (f : α → Nat) (l : List α) (n : Nat) :
    l.foldl (fun s x => s + f x) n = n + (l.map f).sum := by
  induction l generalizing n with
  | nil => simp
  | cons a t ih => simp [ih, List.sum_cons]; omega

/-- C9: aggregated totals are the sums of awarded and maximum marks, the
percentage is total/max × 100 (0 when the maximum is 0), and the letter
grade is exactly the fixed banding ≥80 A*, ≥70 A, ≥60 B, ≥50 C, ≥40 D,
≥30 E, otherwise U. -/
theorem c9_aggregation_and_banding :
    (∀ results : List MarkingResultData,
      totalScoreOf results = (results.map (·.marksAwarded)).sum ∧
      maxScoreOf results = (results.map (·.maxMarks)).sum ∧
      (maxScoreOf results = 0 → percentageOf results = 0) ∧
      (maxScoreOf results ≠ 0 →
        percentageOf results =
          ((totalScoreOf results : ℚ) / (maxScoreOf results : ℚ)) * 100)) ∧
    (∀ p : ℚ,
      (calculateGrade p = "A*" ↔ 80 ≤ p) ∧
      (calculateGrade p = "A" ↔ 70 ≤ p ∧ p < 80) ∧
      (calculateGrade p = "B" ↔ 60 ≤ p ∧ p < 70) ∧
      (calculateGrade p = "C" ↔ 50 ≤ p ∧ p < 60) ∧
      (calculateGrade p = "D" ↔ 40 ≤ p ∧ p < 50) ∧
      (calculateGrade p = "E" ↔ 30 ≤ p ∧ p < 40) ∧
      (calculateGrade p = "U" ↔ p < 30)) := by
  constructor
  · intro results
    refine ⟨?_, ?_, ?_, ?_⟩
    · unfold totalScoreOf
      rw [foldl_add_eq_sum]
      simp
    · unfold maxScoreOf
      rw [foldl_add_eq_sum]
      simp
    · intro h
      simp [percentageOf, h]
    · intro h
      simp [percentageOf, Nat.pos_of_ne_zero h]
  · intro p
    unfold calculateGrade
    split_ifs with h1 h2 h3 h4 h5 h6 <;>
      refine ⟨?_, ?_, ?_, ?_, ?_, ?_, ?_⟩ <;> simp <;> intros <;>
        first
          | linarith
          | (constructor <;> linarith)

/-- C2: whenever the extraction stage fails (in particular when the bounded
OCR polling loop exhausts its 30-attempt budget and raises a timeout), the
pipeline leaves the submission FAILED with a non-empty error message, the
marking stage is never invoked, and no MarkingResult rows exist. -/
theorem c2_extraction_failure_fails_pipeline (job : OCRService.PDFJob)
    (marking : Except String (List Pipeline.StoredResult)) (e : String)
    (hocr : OCRService.processPDF job = .error e) :
    (Pipeline.processSubmissionAsync ⟨true, true, OCRService.processPDF job, marking⟩).status =
      Pipeline.SubStatus.FAILED ∧
    (Pipeline.processSubmissionAsync ⟨true, true, OCRService.processPDF job, marking⟩).errorMessage
      = some "OCR processing failed: Failed to process PDF with OCR" ∧
    "OCR processing failed: Failed to process PDF with OCR" ≠ "" ∧
    (Pipeline.processSubmissionAsync ⟨true, true, OCRService.processPDF job, marking⟩).results
      = [] ∧
    (Pipeline.processSubmissionAsync
      ⟨true, true, OCRService.processPDF job, marking⟩).markingInvoked = false := by
  have he : OCRService.processPDF job = .error "Failed to process PDF with OCR" := by
    unfold OCRService.processPDF
    unfold OCRService.processPDF at hocr
    cases h : OCRService.processPDFBody job with
    | ok t => rw [h] at hocr; exact absurd hocr (by simp)
    | error m => rfl
  refine ⟨?_, ?_, by decide, ?_, ?_⟩ <;>
    simp [Pipeline.processSubmissionAsync, he, Pipeline.failWith, Pipeline.freshSubmission,
      Pipeline.classifyError] <;> decide

theorem c2_witness :
    OCRService.processPDF
      ⟨false, true, "", some "pdf1", fun _ => .ok "processing" "", "text"⟩ =
      .error "Failed to process PDF with OCR" ∧
    (Pipeline.processSubmissionAsync ⟨true, true,
      OCRService.processPDF
        ⟨false, true, "", some "pdf1", fun _ => .ok "processing" "", "text"⟩,
      .ok []⟩).status = Pipeline.SubStatus.FAILED := by
  have h : OCRService.processPDF
      ⟨false, true, "", some "pdf1", fun _ => .ok "processing" "", "text"⟩ =
      .error "Failed to process PDF with OCR" := by rfl
  exact ⟨h, (c2_extraction_failure_fails_pipeline _ (.ok []) _ h).1⟩

theorem c9_witness :
    percentageOf [] = 0 ∧
    percentageOf [⟨"01.1", "a", 1, 2, "", [], false, 1⟩] =
      ((totalScoreOf [⟨"01.1", "a", 1, 2, "", [], false, 1⟩] : ℚ) /
        (maxScoreOf [⟨"01.1", "a", 1, 2, "", [], false, 1⟩] : ℚ)) * 100 := by
  exact ⟨(c9_aggregation_and_banding.1 []).2.2.1 (by decide),
    (c9_aggregation_and_banding.1 _).2.2.2 (by decide)⟩

end Marking
